import Mathlib

/-!
Verification development for the AudiobookOrganizer repository.

The definitions below are a shallow embedding of the Python sources
(`main.py`, `metadata_utils.py`, `file_system_utils.py`); strings are
modelled as Lean `String`/`List Char`, Python `None`-able strings as
`Option String`, and the Python `float` book/part numbers as canonical
decimal numbers (`Dec` below), which is exact for every value the code
ever produces (they all come from parsing `\d+(\.\d+)?` digit strings).
Each embedded function carries a comment naming the source function and
lines it was translated from.  The regular-expression substitutions of
the source are embedded as explicit matcher functions, one per pattern,
with the pattern quoted next to the matcher.
-/

set_option maxHeartbeats 4000000

namespace AudiobookOrganizer

/-! ## Python string primitives -/

/-- The whitespace characters stripped by Python `str.strip()` and matched by
regex `\s` (ASCII range, which is all the source data uses). -/
def pyWsChars : List Char := [' ', '\t', '\n', '\r', '\x0b', '\x0c']

def isPyWs (c : Char) : Bool := pyWsChars.contains c

def isAsciiDigit (c : Char) : Bool := ('0' ≤ c) && (c ≤ '9')

/-- `str.lstrip`-style strip with an arbitrary character predicate. -/
def lstripWith (p : Char → Bool) (l : List Char) : List Char := l.dropWhile p

/-- `str.rstrip`-style strip with an arbitrary character predicate (remove the
longest trailing run of characters satisfying `p`). -/
def rstripWith (p : Char → Bool) : List Char → List Char
  | [] => []
  | c :: t =>
    let r := rstripWith p t
    if r.isEmpty then (if p c then [] else [c]) else c :: r

def stripWith (p : Char → Bool) (l : List Char) : List Char :=
  rstripWith p (lstripWith p l)

/-- Python `str.strip()` (no argument: strips whitespace), on `List Char`. -/
def pyStripL (l : List Char) : List Char := stripWith isPyWs l

/-- Python `str.strip()` on `String`. -/
def pyStrip (s : String) : String := (pyStripL s.toList).asString

/-- Python `str.strip(chars)`, on `List Char`. -/
def stripCharsL (cs : List Char) (l : List Char) : List Char :=
  stripWith (fun c => cs.contains c) l

/-- Python `str.lower()` (ASCII case folding, which covers the source data). -/
def lowerL (l : List Char) : List Char := l.map Char.toLower

def pyLower (s : String) : String := (lowerL s.toList).asString

/-- `needle` occurs at the start of `hay` (case-sensitive). -/
def startsWithL : List Char → List Char → Bool
  | _, [] => true
  | [], _ :: _ => false
  | c :: h, d :: n => (c = d) && startsWithL h n

/-- Python's substring test `needle in hay`. -/
def containsSub (hay needle : List Char) : Bool :=
  match hay with
  | [] => startsWithL [] needle
  | _ :: t => startsWithL hay needle || containsSub t needle

/-- Truthiness of a Python value that is either `None` or a `str`:
`None` and `""` are falsy. -/
def pyTruthy : Option String → Bool
  | none => false
  | some s => s ≠ ""

/-- `x if x else None` for an optional string (used when the source inserts
possibly-empty strings into sets). -/
def pyTruthyOpt (o : Option String) : Option String :=
  if pyTruthy o then o else none

/-- First segment of `re.split(r'[;,/&]| and ', artist)`: the prefix of the
string up to the leftmost separator (one of `;`, `,`, `/`, `&`, or the
five-character sequence `" and "`). From `main.py` line 525. -/
def authorFirstSegmentL : List Char → List Char
  | [] => []
  | c :: t =>
    if c = ';' ∨ c = ',' ∨ c = '/' ∨ c = '&' then []
    else if startsWithL (c :: t) " and ".toList then []
    else c :: authorFirstSegmentL t

def authorFirstSegment (s : String) : String := (authorFirstSegmentL s.toList).asString

/-- `os.path.basename`: the part of the path after the last `/`. -/
def basenameL (l : List Char) : List Char :=
  (l.reverse.takeWhile (· ≠ '/')).reverse

def basenameStr (s : String) : String := (basenameL s.toList).asString

/-- The extension component of `os.path.splitext` (suffix from the last dot of
the basename, provided some non-dot character precedes that dot within the
basename, so names made of leading dots have no extension). -/
def splitextExtL (l : List Char) : List Char :=
  let b := basenameL l
  if b.contains '.' then
    let revTail := b.reverse.takeWhile (· ≠ '.')
    let ext := '.' :: revTail.reverse
    let stem := b.take (b.length - ext.length)
    if stem.any (· ≠ '.') then ext else []
  else []

def splitextExt (s : String) : String := (splitextExtL s.toList).asString

/-! ## Canonical decimal numbers (the Python floats of the source)

Every `float` the source manipulates as a series/part number is produced by
`float(...)` on a string matching `\d+(\.\d+)?` (or comes from OPF metadata of
the same shape), so it is a nonnegative decimal with a short digit expansion;
`str()` then reproduces exactly those digits (with trailing fractional zeros
dropped and `".0"` shown for whole numbers). We model such a number by its
integer part and its fractional digit list with no trailing zero, which makes
structural equality coincide with Python float equality and the lexicographic
order below coincide with numeric order. -/

def dropTrailingZeros (l : List Nat) : List Nat :=
  (l.reverse.dropWhile (· = 0)).reverse

theorem head?_dropWhile_ne {p : α → Bool} (l : List α) :
    ∀ x, (l.dropWhile p).head? = some x → p x = false := by
  induction l with
  | nil => intro x h; simp [List.dropWhile] at h
  | cons c t ih =>
    intro x h
    by_cases hc : p c
    · rw [List.dropWhile_cons_of_pos hc] at h; exact ih x h
    · rw [List.dropWhile_cons_of_neg hc] at h
      simp at h
      simp [← h]
      simpa using hc

theorem dropTrailingZeros_getLast? (l : List Nat) :
    (dropTrailingZeros l).getLast? ≠ some 0 := by
  intro h
  rw [dropTrailingZeros, List.getLast?_reverse] at h
  have := head?_dropWhile_ne (p := fun n => decide (n = 0)) l.reverse 0 h
  simp at this

/-- A canonical nonnegative decimal number: integer part plus fractional digit
list with no trailing zero. -/
def Dec : Type := {p : Nat × List Nat // p.2.getLast? ≠ some 0}

instance : DecidableEq Dec := fun a b =>
  decidable_of_iff (a.val = b.val) Subtype.ext_iff.symm

/-- Build a `Dec`, normalising away trailing fractional zeros (as `float(...)`
followed by `str(...)` does in Python). -/
def Dec.make (ip : Nat) (frac : List Nat) : Dec :=
  ⟨(ip, dropTrailingZeros frac), dropTrailingZeros_getLast? frac⟩

def Dec.ip (d : Dec) : Nat := d.val.1

def Dec.frac (d : Dec) : List Nat := d.val.2

/-- Strict comparison of fractional digit lists. On lists with no trailing
zeros (our canonical fractions) this is exactly numeric comparison of the
fractions they denote: the first differing digit decides, and a proper
extension of a canonical fraction adds a nonzero tail, so it is larger. -/
def fracLtB : List Nat → List Nat → Bool
  | [], [] => false
  | [], _ :: _ => true
  | _ :: _, [] => false
  | a :: as, b :: bs => a < b || (a = b && fracLtB as bs)

/-- Python `<` on the floats we model: numeric comparison, realised as
integer-part-then-fraction comparison. -/
def Dec.ltB (x y : Dec) : Bool :=
  x.ip < y.ip || (x.ip = y.ip && fracLtB x.frac y.frac)

/-- Python `max(a, b)` (returns `a` on ties, which for canonical values is the
same value as `b`). -/
def Dec.pyMax (a b : Dec) : Dec := if Dec.ltB a b then b else a

def digitToChar (n : Nat) : Char := Char.ofNat (48 + n)

def digitsStr (l : List Nat) : List Char := l.map digitToChar

/-- Decimal digit expansion of a natural number (fuelled division loop; the
fuel `n + 1` always suffices since `n / 10 < n` for `n ≥ 10`). -/
def natDigitsAux : Nat → Nat → List Char → List Char
  | 0, _, acc => acc
  | fuel + 1, n, acc =>
    if n < 10 then digitToChar n :: acc
    else natDigitsAux fuel (n / 10) (digitToChar (n % 10) :: acc)

def natDigits (n : Nat) : List Char := natDigitsAux (n + 1) n []

/-- Python `str(n)` for a natural number. -/
def natStr (n : Nat) : String := (natDigits n).asString

/-- Python `str(x)` for one of our floats: always shows a decimal point,
printing `".0"` for whole numbers (e.g. `str(2.0) == "2.0"`). -/
def Dec.pyStr (d : Dec) : String :=
  (natDigits d.ip ++ (if d.frac = [] then ['.', '0'] else '.' :: digitsStr d.frac)).asString

/-- Python `f"{n:0wd}"` for a natural number: left-pad with zeros to width `w`. -/
def zeroPadNat (w : Nat) (n : Nat) : String :=
  let ds := natDigits n
  (List.replicate (w - ds.length) '0' ++ ds).asString

/-- Python `f"{i:0wd}"` for an integer (the sign occupies one column). -/
def zeroPadInt (w : Nat) (i : Int) : String :=
  if i < 0 then "-" ++ zeroPadNat (w - 1) i.natAbs else zeroPadNat w i.natAbs

/-- Python `str(i)` for an integer. -/
def intStr (i : Int) : String :=
  if i < 0 then "-" ++ natStr i.natAbs else natStr i.natAbs

def digitCharsToNat (l : List Char) : Nat :=
  l.foldl (fun a c => a * 10 + (c.toNat - 48)) 0

/-- `float(s)` for a captured `\d+(\.\d+)?` string, split into its integer
digits and fractional digits. -/
def decOfDigits (ipart frac : List Char) : Dec :=
  Dec.make (digitCharsToNat ipart) (frac.map (fun c => c.toNat - 48))

/-- Python `int(s)`: strips whitespace, then an optional sign, then decimal
digits possibly separated by single underscores; anything else raises
`ValueError`, modelled as `none`. -/
def pyIntDigits : List Char → Option Nat
  | [] => none
  | l =>
    if l.head? = some '_' ∨ l.getLast? = some '_' ∨ containsSub l ['_', '_'] then none
    else if l.all (fun c => isAsciiDigit c || c = '_') then
      some (digitCharsToNat (l.filter isAsciiDigit))
    else none

def pyInt (s : String) : Option Int :=
  match pyStripL s.toList with
  | '+' :: t => (pyIntDigits t).map (fun n => (n : Int))
  | '-' :: t => (pyIntDigits t).map (fun n => -(n : Int))
  | t => (pyIntDigits t).map (fun n => (n : Int))

/-! ## `sanitize_filename` (file_system_utils.py lines 53-66) -/

def invalidFilenameChars : List Char := ['<', '>', ':', '"', '/', '\\', '|', '?', '*']

theorem length_dropWhile_le (p : α → Bool) (l : List α) :
    (l.dropWhile p).length ≤ l.length := by
  induction l with
  | nil => simp [List.dropWhile]
  | cons c t ih =>
    by_cases hc : p c
    · rw [List.dropWhile_cons_of_pos hc]
      exact Nat.le_succ_of_le ih
    · rw [List.dropWhile_cons_of_neg hc]

/-- Helper for `collapseWsL`: the flag records whether we are inside a
whitespace run whose single replacement space was already emitted. -/
def collapseWsAux : Bool → List Char → List Char
  | _, [] => []
  | inWs, c :: t =>
    if isPyWs c then
      if inWs then collapseWsAux true t else ' ' :: collapseWsAux true t
    else c :: collapseWsAux false t

/-- `re.sub(r'\s+', ' ', s)`: collapse every whitespace run to a single space. -/
def collapseWsL (l : List Char) : List Char := collapseWsAux false l

/-- `sanitize_filename` from `file_system_utils.py` lines 53-66. A falsy
argument (`None` or `""`, modelled as `""`) yields `"Untitled"`; otherwise the
characters `<>:"/\|?*` are replaced by `_`, leading/trailing spaces and dots
are stripped, whitespace runs are collapsed, and the result is truncated to
200 characters. -/
def sanitize_filename (s : String) : String :=
  if s = "" then "Untitled"
  else
    let l1 := s.toList.map (fun c => if invalidFilenameChars.contains c then '_' else c)
    let l2 := stripCharsL [' ', '.'] l1
    let l3 := collapseWsL l2
    (if l3.length > 200 then l3.take 200 else l3).asString

/-! ## `normalize_publisher_name` (metadata_utils.py lines 432-478) -/

/-- The replacement table of `normalize_publisher_name`, in source order. -/
def publisherReplacements : List (String × String) :=
  [("graphic audio", "Graphic Audio"),
   ("audible studios", "Audible"),
   ("audible", "Audible"),
   ("hachette audio", "Hachette Audio"),
   ("random house audio", "Random House Audio"),
   ("macmillan audio", "Macmillan Audio"),
   ("harperaudio", "HarperAudio"),
   ("simon & schuster audio", "Simon & Schuster Audio"),
   ("prh audio", "PRH Audio"),
   ("tantor audio", "Tantor Audio"),
   ("brilliance audio", "Brilliance Audio"),
   ("podium audio", "Podium Audio"),
   ("dreamscape media", "Dreamscape Media"),
   ("recorded books", "Recorded Books"),
   ("blackstone audio", "Blackstone Audio"),
   ("scholastic audio", "Scholastic Audio"),
   ("michael-scott earle", "Self-Published"),
   ("actors everywhere", "Actors Everywhere"),
   ("graphic", "Graphic Audio")]

/-- Body of `normalize_publisher_name` for a truthy input string: lowercase and
strip, look for an exact table hit, then for a table key occurring as a
substring, and finally fall back to `sanitize_filename` of the original. -/
def normCoreStr (s : String) : String :=
  let normalized := pyStrip (pyLower s)
  match publisherReplacements.find? (fun p => p.1 = normalized) with
  | some p => p.2
  | none =>
    match publisherReplacements.find? (fun p => containsSub normalized.toList p.1.toList) with
    | some p => p.2
    | none => sanitize_filename s

/-- `normalize_publisher_name` from `metadata_utils.py` lines 432-478
(`None`/empty input yields `None`). -/
def normalize_publisher_name (o : Option String) : Option String :=
  if pyTruthy o then some (normCoreStr (o.getD "")) else none

/-! ## Regex matcher machinery

A `Matcher` tries to match one regex fragment at the current position of a
character list and, on success, returns the remainder after the match. The
combinators mirror Python's `re` engine on the specific patterns of the
source: greedy quantifiers are used where no backtracking can change the
outcome (e.g. `\s*` directly before a fixed non-whitespace character), and
the `...K` variants thread an explicit continuation where the engine would
backtrack (optional groups, alternations, `\s*` before an arbitrary
literal). `$` is Python's non-MULTILINE `$` (end of string, or just before a
final newline) and `.` does not match a newline. -/

abbrev Matcher := List Char → Option (List Char)

/-- Match one literal character. -/
def mChar (c : Char) : Matcher := fun l =>
  match l with
  | d :: t => if d = c then some t else none
  | [] => none

/-- Match one character of a class (the class listed lowercase), ignoring case. -/
def mClassCI (cs : List Char) : Matcher := fun l =>
  match l with
  | d :: t => if cs.contains d.toLower then some t else none
  | [] => none

/-- Match one character of a class, case-sensitively. -/
def mClass (cs : List Char) : Matcher := fun l =>
  match l with
  | d :: t => if cs.contains d then some t else none
  | [] => none

/-- Match a literal, ignoring case (all source patterns use `re.IGNORECASE`). -/
def mLitCI : List Char → Matcher
  | [], l => some l
  | c :: cs, l =>
    match l with
    | d :: t => if d.toLower = c.toLower then mLitCI cs t else none
    | [] => none

/-- `\s*`, greedy (used only where the next token cannot match whitespace). -/
def mWs0 : Matcher := fun l => some (l.dropWhile isPyWs)

/-- `\s+`, greedy (same proviso). -/
def mWs1 : Matcher := fun l =>
  match l with
  | c :: t => if isPyWs c then some (t.dropWhile isPyWs) else none
  | [] => none

/-- `\d+`, greedy (the token after it is never a digit in the source patterns). -/
def mDigits1 : Matcher := fun l =>
  match l with
  | c :: t => if isAsciiDigit c then some (t.dropWhile isAsciiDigit) else none
  | [] => none

def mSeq (a b : Matcher) : Matcher := fun l => (a l).bind b

/-- Optional fragment at the very end of a pattern (greedy, nothing follows). -/
def mOpt (a : Matcher) : Matcher := fun l =>
  match a l with
  | some r => some r
  | none => some l

/-- Optional fragment with continuation `k`: try taking the fragment first,
fall back to skipping it (regex backtracking). -/
def mOptK (a k : Matcher) : Matcher := fun l =>
  match a l with
  | some r =>
    match k r with
    | some r2 => some r2
    | none => k l
  | none => k l

/-- Alternation of case-insensitive literals, threaded through continuation
`k`: the first alternative whose literal and continuation both match wins. -/
def mAltLitsK : List String → Matcher → Matcher
  | [], _ => fun _ => none
  | a :: rest, k => fun l =>
    match (mLitCI a.toList l).bind k with
    | some r => some r
    | none => mAltLitsK rest k l

/-- Optional keyword alternation with continuation (backtracks both over the
alternatives and over skipping the group entirely). -/
def mOptAltLitsK (alts : List String) (k : Matcher) : Matcher := fun l =>
  match mAltLitsK alts k l with
  | some r => some r
  | none => k l

/-- Python's (non-MULTILINE) `$`: end of string, or just before a final
newline, which is then left unconsumed. -/
def mEndPy : Matcher := fun l =>
  match l with
  | [] => some []
  | ['\n'] => some ['\n']
  | _ => none

/-- `.*$`: succeeds exactly when the text has no interior newline; a final
newline (if any) is left unconsumed. -/
def mDotStarEnd : Matcher := fun l =>
  if l.dropLast.contains '\n' then none
  else if l.getLast? = some '\n' then some ['\n'] else some []

/-- `\s*X...` where `X` is a fixed non-whitespace character: skip whitespace
greedily, require `X`, continue with `k`. -/
def mAfterWsChar (req : Char) (k : Matcher) : Matcher := fun l =>
  match l.dropWhile isPyWs with
  | c :: t => if c = req then k t else none
  | [] => none

/-- Backtracking helper for `mWs0K`: try `k` after dropping `n` characters,
then after `n-1`, and so on down to `0`. -/
def mWs0KAux (k : Matcher) : Nat → List Char → Option (List Char)
  | 0, l => k l
  | n + 1, l =>
    match k (l.drop (n + 1)) with
    | some r => some r
    | none => mWs0KAux k n l

/-- `\s*` with continuation and full backtracking (needed before an arbitrary
literal such as an interpolated series name, which could itself begin with
whitespace). -/
def mWs0K (k : Matcher) : Matcher := fun l =>
  mWs0KAux k (l.takeWhile isPyWs).length l

/-- The dash/colon character class `[-–—:]` of the source patterns. -/
def dashClassChars : List Char := ['-', '–', '—', ':']

def mDash : Matcher := mClass dashClassChars

def mDashOptK (k : Matcher) : Matcher := mOptK mDash k

/-- `(?:\.\d+)?`, greedy, nothing after it can consume the dot or digits. -/
def mFracOpt : Matcher := mOpt (mSeq (mChar '.') mDigits1)

/-- `(?:\.\d+)?` with continuation. -/
def mFracOptK (k : Matcher) : Matcher := mOptK (mSeq (mChar '.') mDigits1) k

/-- The tail `\s*[-–—:]?\s*(.*)?$` shared by several source patterns: after
greedily discarding whitespace, an optional dash and more whitespace, the rest
must be newline-free up to an optional final newline. Taking the dash when it
is present loses no matches because `.` also matches the dash. -/
def mTailRest : Matcher := fun l =>
  let r1 := l.dropWhile isPyWs
  match r1 with
  | c :: t =>
    if dashClassChars.contains c then mDotStarEnd (t.dropWhile isPyWs)
    else mDotStarEnd r1
  | [] => some []

/-- `\s*[-–—:]?\s*` at the very end of a pattern (pure greedy consumption). -/
def mWsDashWs : Matcher := fun l =>
  let r1 := l.dropWhile isPyWs
  match r1 with
  | c :: t => if dashClassChars.contains c then some (t.dropWhile isPyWs) else some r1
  | [] => some []

/-- `re.sub(pattern, '', s)` (global): delete every match, scanning left to
right and continuing after each deleted match. Written with fuel so that it
computes by kernel reduction; `l.length + 1` fuel always suffices because the
matchers used with it consume at least one character per match. -/
def gsubAux (m : Matcher) : Nat → List Char → List Char
  | 0, l => l
  | fuel + 1, l =>
    match m l with
    | some rest =>
      if rest.length < l.length then gsubAux m fuel rest
      else
        match l with
        | [] => []
        | c :: t => c :: gsubAux m fuel t
    | none =>
      match l with
      | [] => []
      | c :: t => c :: gsubAux m fuel t

def gsubL (m : Matcher) (l : List Char) : List Char := gsubAux m (l.length + 1) l

/-- `re.sub(p, '', s)` for a `^`-anchored pattern: delete the prefix match if
there is one (there is at most one). -/
def subPrefixL (m : Matcher) (l : List Char) : List Char :=
  match m l with
  | some r => r
  | none => l

/-- `re.sub(p, '', s)` for a `$`-anchored pattern: delete the leftmost match,
which extends to the end of the string (possibly leaving a final newline that
`$` matched in front of). -/
def subEndL (m : Matcher) : List Char → List Char
  | [] => []
  | c :: t =>
    match m (c :: t) with
    | some r => r
    | none => c :: subEndL m t

/-! ## `strip_part_info_from_title` (metadata_utils.py lines 395-429) -/

/-- `\s*\(Part\s+\d+(?:\.\d+)?\s+of\s+\d+\)` -/
def pPart1 : Matcher :=
  mAfterWsChar '(' fun l =>
    (mLitCI "Part".toList l).bind fun l =>
    (mWs1 l).bind fun l =>
    (mDigits1 l).bind fun l =>
    mFracOptK (fun l =>
      (mWs1 l).bind fun l =>
      (mLitCI "of".toList l).bind fun l =>
      (mWs1 l).bind fun l =>
      (mDigits1 l).bind (mChar ')')) l

/-- `\s*\(\d+(?:\.\d+)?\s*of\s*\d+\)` -/
def pPart2 : Matcher :=
  mAfterWsChar '(' fun l =>
    (mDigits1 l).bind fun l =>
    mFracOptK (fun l =>
      (mWs0 l).bind fun l =>
      (mLitCI "of".toList l).bind fun l =>
      (mWs0 l).bind fun l =>
      (mDigits1 l).bind (mChar ')')) l

/-- `\s*\(Disc\s+\d+\s+of\s+\d+\)` -/
def pPart3 : Matcher :=
  mAfterWsChar '(' fun l =>
    (mLitCI "Disc".toList l).bind fun l =>
    (mWs1 l).bind fun l =>
    (mDigits1 l).bind fun l =>
    (mWs1 l).bind fun l =>
    (mLitCI "of".toList l).bind fun l =>
    (mWs1 l).bind fun l =>
    (mDigits1 l).bind (mChar ')')

/-- `\s*\(\d+(?:\.\d+)?\)` -/
def pPart4 : Matcher :=
  mAfterWsChar '(' fun l =>
    (mDigits1 l).bind fun l =>
    mFracOptK (mChar ')') l

/-- `\s*\[Part\s+\d+(?:\.\d+)?\s+of\s+\d+\]` -/
def pPart5 : Matcher :=
  mAfterWsChar '[' fun l =>
    (mLitCI "Part".toList l).bind fun l =>
    (mWs1 l).bind fun l =>
    (mDigits1 l).bind fun l =>
    mFracOptK (fun l =>
      (mWs1 l).bind fun l =>
      (mLitCI "of".toList l).bind fun l =>
      (mWs1 l).bind fun l =>
      (mDigits1 l).bind (mChar ']')) l

/-- `\s*\[\d+(?:\.\d+)?\s+of\s+\d+\]` -/
def pPart6 : Matcher :=
  mAfterWsChar '[' fun l =>
    (mDigits1 l).bind fun l =>
    mFracOptK (fun l =>
      (mWs1 l).bind fun l =>
      (mLitCI "of".toList l).bind fun l =>
      (mWs1 l).bind fun l =>
      (mDigits1 l).bind (mChar ']')) l

/-- `\s*\[Disc\s+\d+\s+of\s+\d+\]` -/
def pPart7 : Matcher :=
  mAfterWsChar '[' fun l =>
    (mLitCI "Disc".toList l).bind fun l =>
    (mWs1 l).bind fun l =>
    (mDigits1 l).bind fun l =>
    (mWs1 l).bind fun l =>
    (mLitCI "of".toList l).bind fun l =>
    (mWs1 l).bind fun l =>
    (mDigits1 l).bind (mChar ']')

/-- `\s*\[\d+(?:\.\d+)?\]` -/
def pPart8 : Matcher :=
  mAfterWsChar '[' fun l =>
    (mDigits1 l).bind fun l =>
    mFracOptK (mChar ']') l

/-- `\s*-\s*Part\s+\d+(?:\.\d+)?(?:\s+of\s+\d+)?` -/
def pPart9 : Matcher :=
  mAfterWsChar '-' fun l =>
    (mWs0 l).bind fun l =>
    (mLitCI "Part".toList l).bind fun l =>
    (mWs1 l).bind fun l =>
    (mDigits1 l).bind fun l =>
    mFracOptK (mOpt fun l =>
      (mWs1 l).bind fun l =>
      (mLitCI "of".toList l).bind fun l =>
      (mWs1 l).bind mDigits1) l

/-- `\s*-\s*\d+(?:\.\d+)?(?:\s+of\s+\d+)?` -/
def pPart10 : Matcher :=
  mAfterWsChar '-' fun l =>
    (mWs0 l).bind fun l =>
    (mDigits1 l).bind fun l =>
    mFracOptK (mOpt fun l =>
      (mWs1 l).bind fun l =>
      (mLitCI "of".toList l).bind fun l =>
      (mWs1 l).bind mDigits1) l

/-- `\s*\(Dramatized Adaptation\)` -/
def pPart11 : Matcher :=
  mAfterWsChar '(' fun l =>
    (mLitCI "Dramatized Adaptation".toList l).bind (mChar ')')

/-- The ordered pattern list of `strip_part_info_from_title`. -/
def partInfoPatterns : List Matcher :=
  [pPart1, pPart2, pPart3, pPart4, pPart5, pPart6,
   pPart7, pPart8, pPart9, pPart10, pPart11]

/-- `strip_part_info_from_title` from `metadata_utils.py` lines 395-429:
globally delete each part notation in pattern order (stripping whitespace
after each substitution), then strip residual spaces/hyphens/dots. -/
def strip_part_info_from_title (s : String) : String :=
  if s = "" then ""
  else
    let cleaned := partInfoPatterns.foldl (fun acc p => pyStripL (gsubL p acc)) s.toList
    (pyStripL (stripCharsL [' ', '-', '.'] cleaned)).asString

/-! ## `strip_series_info_from_title` (metadata_utils.py lines 350-393) -/

def kwBVVP : List String := ["Book", "Vol", "Volume", "Part"]

/-- `^NAME\s*[#S]\s*\d+(\.\d+)?\s*[-–—:]?\s*` -/
def sPat371 (nm : List Char) : Matcher := fun l =>
  (mLitCI nm l).bind fun l =>
  (mWs0 l).bind fun l =>
  (mClassCI ['#', 's'] l).bind fun l =>
  (mWs0 l).bind fun l =>
  (mDigits1 l).bind fun l =>
  (mFracOpt l).bind mWsDashWs

/-- `^NAME,\s*(?:Book|Vol|Volume|Part)\s*\d+(\.\d+)?\s*[-–—:]?\s*` -/
def sPat372 (nm : List Char) : Matcher := fun l =>
  (mLitCI nm l).bind fun l =>
  (mChar ',' l).bind fun l =>
  (mWs0 l).bind fun l =>
  mAltLitsK kwBVVP (fun l =>
    (mWs0 l).bind fun l =>
    (mDigits1 l).bind fun l =>
    (mFracOpt l).bind mWsDashWs) l

/-- `^NAME\s*[-–—:]\s*(?:Book|Vol|Volume|Part)\s*\d+(\.\d+)?\s*[-–—:]?\s*(.*)?$`
(the trailing `(.*)?$` makes a successful match swallow the whole string). -/
def sPat373 (nm : List Char) : Matcher := fun l =>
  (mLitCI nm l).bind fun l =>
  (mWs0 l).bind fun l =>
  (mDash l).bind fun l =>
  (mWs0 l).bind fun l =>
  mAltLitsK kwBVVP (fun l =>
    (mWs0 l).bind fun l =>
    (mDigits1 l).bind fun l =>
    (mFracOpt l).bind mTailRest) l

/-- `\s*[-–—:]?\s*NAME\s*[#S]\s*\d+(\.\d+)?$` -/
def sPat376 (nm : List Char) : Matcher :=
  mWs0K (mDashOptK (mWs0K fun l =>
    (mLitCI nm l).bind fun l =>
    (mWs0 l).bind fun l =>
    (mClassCI ['#', 's'] l).bind fun l =>
    (mWs0 l).bind fun l =>
    (mDigits1 l).bind fun l =>
    mFracOptK mEndPy l))

/-- `\s*,\s*NAME,\s*(?:Book|Vol|Volume|Part)\s*\d+(\.\d+)?$` -/
def sPat377 (nm : List Char) : Matcher :=
  mAfterWsChar ',' (mWs0K fun l =>
    (mLitCI nm l).bind fun l =>
    (mChar ',' l).bind fun l =>
    (mWs0 l).bind fun l =>
    mAltLitsK kwBVVP (fun l =>
      (mWs0 l).bind fun l =>
      (mDigits1 l).bind fun l =>
      mFracOptK mEndPy l) l)

/-- `\s*[-–—:]\s*NAME\s*[-–—:]\s*(?:Book|Vol|Volume|Part)\s*\d+(\.\d+)?$` -/
def sPat378 (nm : List Char) : Matcher := fun l =>
  (mWs0 l).bind fun l =>
  (mDash l).bind fun l =>
  mWs0K (fun l =>
    (mLitCI nm l).bind fun l =>
    (mWs0 l).bind fun l =>
    (mDash l).bind fun l =>
    (mWs0 l).bind fun l =>
    mAltLitsK kwBVVP (fun l =>
      (mWs0 l).bind fun l =>
      (mDigits1 l).bind fun l =>
      mFracOptK mEndPy l) l) l

/-- `^NAME\s*[-–—:]?\s*` -/
def sPat381 (nm : List Char) : Matcher := fun l =>
  (mLitCI nm l).bind mWsDashWs

/-- `\s*[-–—:]?\s*NAME$` -/
def sPat382 (nm : List Char) : Matcher :=
  mWs0K (mDashOptK (mWs0K fun l =>
    (mLitCI nm l).bind mEndPy))

/-- `\s*[-–—:]?\s*NUM(\s*of\s*\d+)?$` with `NUM` the escaped `str()` of the
book number. -/
def sPat390 (ns : List Char) : Matcher :=
  mWs0K (mDashOptK (mWs0K fun l =>
    (mLitCI ns l).bind fun l =>
    mOptK (fun l =>
      (mWs0 l).bind fun l =>
      (mLitCI "of".toList l).bind fun l =>
      (mWs0 l).bind mDigits1) mEndPy l))

/-- `\s*\((?:Book|Vol|Volume|Part)?\s*NUM(\s*of\s*\d+)?\)` (global). -/
def sPat391 (ns : List Char) : Matcher :=
  mAfterWsChar '(' fun l =>
    mOptAltLitsK kwBVVP (fun l =>
      (mWs0 l).bind fun l =>
      (mLitCI ns l).bind fun l =>
      mOptK (fun l =>
        (mWs0 l).bind fun l =>
        (mLitCI "of".toList l).bind fun l =>
        (mWs0 l).bind mDigits1) (mChar ')') l) l

/-- `strip_series_info_from_title` from `metadata_utils.py` lines 350-393.
Removes the series name with its surrounding number patterns (when a truthy
series name is given) and standalone occurrences of the book number (when a
number is given); every substitution is followed by `strip()`. -/
def strip_series_info_from_title (title : String) (series_name : Option String)
    (series_book_num : Option Dec) : String :=
  if title = "" then ""
  else
    let ct0 := title.toList
    let ct1 :=
      if pyTruthy series_name then
        let nm := (series_name.getD "").toList
        let a1 := pyStripL (subPrefixL (sPat371 nm) ct0)
        let a2 := pyStripL (subPrefixL (sPat372 nm) a1)
        let a3 := pyStripL (subPrefixL (sPat373 nm) a2)
        let a4 := pyStripL (subEndL (sPat376 nm) a3)
        let a5 := pyStripL (subEndL (sPat377 nm) a4)
        let a6 := pyStripL (subEndL (sPat378 nm) a5)
        let a7 := pyStripL (subPrefixL (sPat381 nm) a6)
        pyStripL (subEndL (sPat382 nm) a7)
      else ct0
    let ct2 :=
      match series_book_num with
      | some num =>
        let ns := num.pyStr.toList
        let b1 := pyStripL (subEndL (sPat390 ns) ct1)
        pyStripL (gsubL (sPat391 ns) b1)
      | none => ct1
    (pyStripL ct2).asString

/-! ## `find_longest_common_substring` (main.py lines 27-53)

This is the definition in `main.py`, the one actually called by
`group_physical_folders_into_logical_books`; note that its substring test is
case-sensitive (`substring not in other_string`), unlike the unused variant in
`book_organizer_logic.py`. -/

/-- All substrings `s1[i:j]` in the iteration order of the source's double
loop (`i` ascending, then `j` ascending). -/
def allSubstrings (l : List Char) : List (List Char) :=
  (List.range l.length).flatMap fun i =>
    (List.range (l.length - i)).map fun k => (l.drop i).take (k + 1)

/-- The source's running-best update: keep the candidate exactly when it is
common to all other strings and strictly longer than the best so far. The
`match` on the test forces each step's comparison, keeping kernel reduction
shallow. -/
def lcsFold (others : List (List Char)) : List (List Char) → List Char → List Char
  | [], best => best
  | sub :: subs, best =>
    match (others.all fun o => containsSub o sub) && best.length < sub.length with
    | true => lcsFold others subs sub
    | false => lcsFold others subs best

/-- `find_longest_common_substring` from `main.py` lines 27-53. -/
def find_longest_common_substring (strings : List String) : String :=
  match strings with
  | [] => ""
  | [s] => s
  | s1 :: rest =>
    let best := lcsFold (rest.map String.toList) (allSubstrings s1.toList) []
    (pyStripL best).asString

/-! ## `extract_series_info` (metadata_utils.py lines 216-277) -/

/-- `(\d+(?:\.\d+)?)` with capture: returns the integer digits, the fractional
digits (empty when no fraction is taken) and the remainder. Greedy, which is
what the engine commits to since everything after the capture in the source
patterns can follow either way. -/
def numCap (l : List Char) : Option ((List Char × List Char) × List Char) :=
  match l with
  | c :: t =>
    if isAsciiDigit c then
      let ds := c :: t.takeWhile isAsciiDigit
      let r1 := t.dropWhile isAsciiDigit
      match r1 with
      | '.' :: u =>
        if (u.takeWhile isAsciiDigit).isEmpty then some ((ds, []), r1)
        else some ((ds, u.takeWhile isAsciiDigit), u.dropWhile isAsciiDigit)
      | _ => some ((ds, []), r1)
    else none
  | [] => none

/-- Tail of pattern `^(.*?)\s*[#S]\s*(\d+(?:\.\d+)?)\s*[-–—:]?\s*(.*)?$` after
the lazy group: returns the captured number. -/
def tailSeries1 (l : List Char) : Option (List Char × List Char) :=
  (mWs0 l).bind fun l =>
  (mClassCI ['#', 's'] l).bind fun l =>
  (mWs0 l).bind fun l =>
  (numCap l).bind fun p =>
  (mTailRest p.2).map fun _ => p.1

/-- `(?:Book|Vol|Volume|Part)\s*` followed by the number capture and the
pattern tail; alternatives are tried in source order with the continuation
(so `Volume 3` is matched by the `Volume` alternative after the `Vol`
alternative fails to find digits). -/
def kwAltNumCap (l : List Char) : Option (List Char × List Char) :=
  tryKw "Book" <|> tryKw "Vol" <|> tryKw "Volume" <|> tryKw "Part"
where
  tryKw (s : String) : Option (List Char × List Char) :=
    (mLitCI s.toList l).bind fun r =>
    (mWs0 r).bind fun r =>
    (numCap r).bind fun p =>
    (mTailRest p.2).map fun _ => p.1

/-- Tail of `^(.*?),\s*(?:Book|Vol|Volume|Part)\s*(\d+(?:\.\d+)?)\s*[-–—:]?\s*(.*)?$`. -/
def tailSeries2 (l : List Char) : Option (List Char × List Char) :=
  (mChar ',' l).bind fun l =>
  (mWs0 l).bind fun l =>
  kwAltNumCap l

/-- Tail of `^(.*?)\s*[-–—:]\s*(?:Book|Vol|Volume|Part)\s*(\d+(?:\.\d+)?)\s*[-–—:]?\s*(.*)?$`. -/
def tailSeries3 (l : List Char) : Option (List Char × List Char) :=
  (mWs0 l).bind fun l =>
  (mDash l).bind fun l =>
  (mWs0 l).bind fun l =>
  kwAltNumCap l

/-- Tail of `^(.*?)\s*(\d+(?:\.\d+)?)\s*[-–—:]?\s*(.*)?$` (the generic
trailing-number pattern, tried last). -/
def tailSeries4 (l : List Char) : Option (List Char × List Char) :=
  (mWs0 l).bind fun l =>
  (numCap l).bind fun p =>
  (mTailRest p.2).map fun _ => p.1

/-- The lazy group `(.*?)`: find the least split point at which the tail
matches (that is how the engine resolves a lazy prefix), returning the group
and the tail's captured value. -/
def lazyScan (tail : List Char → Option α) : List Char → Option (List Char × α)
  | [] => (tail []).map fun a => ([], a)
  | c :: t =>
    match tail (c :: t) with
    | some a => some ([], a)
    | none => (lazyScan tail t).map fun p => (c :: p.1, p.2)

/-- The four ordered series patterns of `extract_series_info`
(lines 234-239), each returning (group 1, captured number digits). -/
def seriesPatterns : List (List Char → Option (List Char × (List Char × List Char))) :=
  [lazyScan tailSeries1, lazyScan tailSeries2, lazyScan tailSeries3, lazyScan tailSeries4]

/-- Inner pattern loop of `extract_series_info` (lines 248-264): each matching
pattern may update the series name (only when its group 1 is nonempty after
stripping) and always overwrites the number; the loop breaks as soon as both
a truthy name and a number are available. -/
def seriesPatternLoop :
    List (List Char → Option (List Char × (List Char × List Char))) →
    List Char → Option String → Option Dec → Option String × Option Dec
  | [], _, nm, num => (nm, num)
  | p :: ps, l, nm, num =>
    match p l with
    | none => seriesPatternLoop ps l nm num
    | some (g1, (ipD, frD)) =>
      let en := pyStripL g1
      let nm' := if en.isEmpty then nm else some en.asString
      let num' := some (decOfDigits ipD frD)
      if pyTruthy nm' then (nm', num')
      else seriesPatternLoop ps l nm' num'

/-- Candidate loop of `extract_series_info` (lines 244-266): falsy candidates
are skipped; the loop breaks once both name and number are known. -/
def seriesCandidateLoop :
    List (Option String) → Option String → Option Dec → Option String × Option Dec
  | [], nm, num => (nm, num)
  | s :: rest, nm, num =>
    if pyTruthy s then
      let r := seriesPatternLoop seriesPatterns (pyStripL (s.getD "").toList) nm num
      if pyTruthy r.1 ∧ r.2.isSome then r
      else seriesCandidateLoop rest r.1 r.2
    else seriesCandidateLoop rest nm num

/-- Cleanup `(?:,\s*)?(?:Book|Vol|Volume|Part)\s*(\d+(?:\.\d+)?)` (line 271,
global). -/
def cPat271 : Matcher := fun l =>
  let k : Matcher := fun l =>
    mAltLitsK kwBVVP (fun l =>
      (mWs0 l).bind fun l =>
      (mDigits1 l).bind mFracOpt) l
  match (mChar ',' l).bind (fun l => (mWs0 l).bind k) with
  | some r => some r
  | none => k l

/-- Cleanup `(\s*[-–—:]\s*)?(?:Book|Vol|Volume|Part)\s*(\d+(?:\.\d+)?)`
(line 272, global). -/
def cPat272 : Matcher := fun l =>
  let k : Matcher := fun l =>
    mAltLitsK kwBVVP (fun l =>
      (mWs0 l).bind fun l =>
      (mDigits1 l).bind mFracOpt) l
  match (mWs0 l).bind (fun l => (mDash l).bind fun l => (mWs0 l).bind k) with
  | some r => some r
  | none => k l

/-- Cleanup `\s*(\d+(?:\.\d+)?)$` (line 274). -/
def cPat274 : Matcher := fun l =>
  (mWs0 l).bind fun l =>
  (mDigits1 l).bind fun l =>
  mFracOptK mEndPy l

/-- `extract_series_info` from `metadata_utils.py` lines 216-277. The number
capture is a digit string, so the source's `float(match.group(2))` never
raises (its `except` branch is dead); a fully unmatched input leaves both
results `None`. -/
def extract_series_info (grouping album title : Option String) :
    Option String × Option Dec :=
  let r := seriesCandidateLoop [grouping, album, title] none none
  match r.1 with
  | some n =>
    if n ≠ "" then
      let a := pyStripL (gsubL cPat271 n.toList)
      let b := pyStripL (gsubL cPat272 a)
      let c := pyStripL (subEndL cPat274 b)
      (some (sanitize_filename c.asString), r.2)
    else r
  | none => r

/-! ## The OPF-branch series-name cleanup (main.py lines 544-549) -/

/-- `\[Dramatized Adaptation\]` (line 544, global). -/
def gPat544 : Matcher := fun l =>
  (mChar '[' l).bind fun l =>
  (mLitCI "Dramatized Adaptation".toList l).bind (mChar ']')

/-- First alternative of line 545: `#\d+(?:\.\d+)?(?:[ -].*)?` before `$`. -/
def gPat545Hash : Matcher := fun l =>
  (mChar '#' l).bind fun l =>
  (mDigits1 l).bind fun l =>
  mFracOptK (fun r =>
    match mEndPy r with
    | some e => some e
    | none =>
      match r with
      | c :: r' => if c = ' ' ∨ c = '-' then mDotStarEnd r' else none
      | [] => none) l

/-- Second alternative of line 545:
`\((?:book|part|disc|volume|vol)\s*\d+(?:\.\d+)?(?:\s+of\s*\d+(?:\.\d+)?)?\)` before `$`. -/
def gPat545Paren : Matcher := fun l =>
  (mChar '(' l).bind fun l =>
  mAltLitsK ["book", "part", "disc", "volume", "vol"] (fun l =>
    (mWs0 l).bind fun l =>
    (mDigits1 l).bind fun l =>
    mFracOptK (mOptK (fun l =>
      (mWs1 l).bind fun l =>
      (mLitCI "of".toList l).bind fun l =>
      (mWs0 l).bind fun l =>
      (mDigits1 l).bind mFracOpt)
      (fun l => (mChar ')' l).bind mEndPy)) l) l

/-- Third alternative of line 545: `\[.*?\]` before `$` (`.` excludes
newlines; the final `]` must sit at the end, or right before a final
newline). -/
def gPat545Bracket : Matcher := fun l =>
  match l with
  | '[' :: t =>
    if t.getLast? = some ']' ∧ ¬ t.dropLast.contains '\n' then some []
    else if t.getLast? = some '\n' ∧ t.dropLast.getLast? = some ']' ∧
        ¬ t.dropLast.dropLast.contains '\n' then some ['\n']
    else none
  | _ => none

/-- Line 545:
`\s*(?:#\d+(?:\.\d+)?(?:[ -].*)?|\((?:book|part|disc|volume|vol)\s*\d+(?:\.\d+)?(?:\s+of\s*\d+(?:\.\d+)?)?\)|\[.*?\])$`. -/
def gPat545 : Matcher := fun l =>
  let l' := l.dropWhile isPyWs
  match gPat545Hash l' with
  | some r => some r
  | none =>
    match gPat545Paren l' with
    | some r => some r
    | none => gPat545Bracket l'

/-- Line 546: `\s*(?:Part|Disc|Volume|Vol)\s*\d+(?:\s+of\s*\d+)?` (global). -/
def gPat546 : Matcher := fun l =>
  (mWs0 l).bind fun l =>
  mAltLitsK ["Part", "Disc", "Volume", "Vol"] (fun l =>
    (mWs0 l).bind fun l =>
    (mDigits1 l).bind (mOpt fun l =>
      (mWs1 l).bind fun l =>
      (mLitCI "of".toList l).bind fun l =>
      (mWs0 l).bind mDigits1)) l

/-- Line 547:
`#\d+(?:\.\d+)?(?:,\s*(?:Part|Disc|Volume|Vol)\s*\d+(?:\s+of\s*\d+)?)?` (global). -/
def gPat547 : Matcher := fun l =>
  (mChar '#' l).bind fun l =>
  (mDigits1 l).bind fun l =>
  (mFracOpt l).bind (mOpt fun l =>
    (mChar ',' l).bind fun l =>
    (mWs0 l).bind fun l =>
    mAltLitsK ["Part", "Disc", "Volume", "Vol"] (fun l =>
      (mWs0 l).bind fun l =>
      (mDigits1 l).bind (mOpt fun l =>
        (mWs1 l).bind fun l =>
        (mLitCI "of".toList l).bind fun l =>
        (mWs0 l).bind mDigits1)) l)

/-- Line 548: `\s*#\d+(?:\.\d+)?$`. -/
def gPat548 : Matcher :=
  mAfterWsChar '#' fun l =>
  (mDigits1 l).bind fun l =>
  mFracOptK mEndPy l

/-- The series-name cleanup applied in the OPF-number branch of
`group_physical_folders_into_logical_books` (main.py lines 544-549); each
substitution is followed by `strip()`, and the last step collapses whitespace
runs. -/
def opfSeriesCleanup (g : String) : String :=
  let a1 := pyStripL (gsubL gPat544 g.toList)
  let a2 := pyStripL (subEndL gPat545 a1)
  let a3 := pyStripL (gsubL gPat546 a2)
  let a4 := pyStripL (gsubL gPat547 a3)
  let a5 := pyStripL (subEndL gPat548 a4)
  (pyStripL (collapseWsL a5)).asString

/-! ## Data model

The record shapes mirror the dictionaries flowing through
`group_physical_folders_into_logical_books` and
`process_single_logical_book_or_part`; `Option` fields are the keys that
`dict.get` may find absent. Only the metadata keys the embedded code reads
are modelled. -/

structure AudioMeta where
  track : Option String := none
  TRACKTOTAL : Option String := none
  title : Option String := none
  deriving DecidableEq

structure AudioFileDetail where
  file_path : String
  metadata : AudioMeta
  has_embedded_image : Bool
  deriving DecidableEq

structure CombinedMetadata where
  artist : Option String := none
  album : Option String := none
  title : Option String := none
  grouping : Option String := none
  performer : Option String := none
  publisher : Option String := none
  series_book_num : Option Dec := none
  extracted_part_designation : Option String := none
  extracted_part_number : Option Dec := none
  extracted_total_parts : Option Nat := none
  deriving DecidableEq

/-- One element of `physical_folder_metadata_results`, the input of
`group_physical_folders_into_logical_books`. -/
structure PhysicalFolderResult where
  physical_folder_path : String
  combined_metadata : Option CombinedMetadata
  book_has_embedded_image : Bool
  all_audio_files_details_in_folder : List AudioFileDetail
  deriving DecidableEq

/-- The grouping key `(sanitized_author, sanitized_series_name,
series_book_num_for_logic, publisher)` of main.py line 574. -/
abbrev LKey := String × Option String × Option Dec × Option String

/-- The dictionary appended to a key's bucket (main.py lines 580-588),
together with the derived author/series fields that form its key. -/
structure DerivedRec where
  physical_folder_path : String
  md : CombinedMetadata
  book_has_embedded_image : Bool
  all_audio_files_details_in_folder : List AudioFileDetail
  sanitized_core_book_title_for_grouping : String
  author : String
  series_name : Option String
  series_book_num : Option Dec
  deriving DecidableEq

def DerivedRec.key (d : DerivedRec) : LKey :=
  (d.author, d.series_name, d.series_book_num, d.md.publisher)

/-- One element of `final_logical_books_for_processing` (a logical book, or
one part of a multi-part logical book). -/
structure LogicalBookInfo where
  author : String
  series_name : Option String
  series_book_num : Option Dec
  core_book_title : String
  publisher : Option String
  performer : Option String
  book_has_embedded_image : Bool
  physical_folder_paths : List String
  all_audio_files_details : List AudioFileDetail
  is_multi_part : Bool
  part_display_name : Option String
  part_index_for_multi_part_parent : Option Nat := none
  deriving DecidableEq

/-! ## The grouping phase (main.py lines 496-724) -/

/-- The per-folder derivation in the first loop of
`group_physical_folders_into_logical_books` (main.py lines 507-588): folders
without metadata are skipped; otherwise derive the sanitized author, the
series name/number (an OPF-supplied number takes precedence, possibly pulling
the series name from the `grouping` tag through the line 544-549 cleanup),
and the core title (series- then part-stripped, with fallbacks when the
stripping empties it). -/
def deriveRec (r : PhysicalFolderResult) : Option DerivedRec :=
  match r.combined_metadata with
  | none => none
  | some md =>
    let sanitized_author :=
      if pyTruthy md.artist then
        sanitize_filename (pyStrip (authorFirstSegment (md.artist.getD "")))
      else "Unknown Author"
    let ex := extract_series_info md.grouping md.album md.title
    let p :=
      match md.series_book_num with
      | some n =>
        let sn1 :=
          if ¬ pyTruthy ex.1 ∧ md.grouping.isSome then
            let g := sanitize_filename (md.grouping.getD "")
            if g ≠ "" then some (opfSeriesCleanup g) else some g
          else ex.1
        (sn1, some n)
      | none => (ex.1, ex.2)
    let series_name := p.1
    let series_num := p.2
    let overall_raw :=
      if pyTruthy md.title then pyStrip (md.title.getD "")
      else if pyTruthy md.album then pyStrip (md.album.getD "")
      else basenameStr r.physical_folder_path
    let temp_core := strip_series_info_from_title overall_raw series_name series_num
    let final_core0 := strip_part_info_from_title temp_core
    let final_core :=
      if final_core0 = "" then (if temp_core ≠ "" then temp_core else overall_raw)
      else final_core0
    some {
      physical_folder_path := r.physical_folder_path
      md := md
      book_has_embedded_image := r.book_has_embedded_image
      all_audio_files_details_in_folder := r.all_audio_files_details_in_folder
      sanitized_core_book_title_for_grouping := sanitize_filename final_core
      author := sanitized_author
      series_name := series_name
      series_book_num := series_num }

/-- Append a record to its key's bucket (Python dict plus list append: an
existing key keeps its position, a new key goes to the end). -/
def updateAppendB : List (LKey × List DerivedRec) → LKey → DerivedRec →
    List (LKey × List DerivedRec)
  | [], k, d => [(k, [d])]
  | (k', ds) :: t, k, d =>
    if k' = k then (k', ds ++ [d]) :: t
    else (k', ds) :: updateAppendB t k d

/-- `logical_books_grouped_by_key` (main.py lines 505-588) as an insertion-
ordered association list. -/
def groupBuckets (rs : List DerivedRec) : List (LKey × List DerivedRec) :=
  rs.foldl (fun acc d => updateAppendB acc d.key d) []

/-- `a or b or c` over the truthiness of optional strings (main.py line 631). -/
def pyOrStr (a b : Option String) (c : String) : String :=
  if pyTruthy a then a.getD "" else if pyTruthy b then b.getD "" else c

/-- A single-member group's logical book (main.py lines 596-617). -/
def mkSingleBook (k : LKey) (m : DerivedRec) : LogicalBookInfo :=
  { author := k.1
    series_name := k.2.1
    series_book_num := k.2.2.1
    core_book_title := m.sanitized_core_book_title_for_grouping
    publisher := k.2.2.2
    performer := m.md.performer
    book_has_embedded_image := m.book_has_embedded_image
    physical_folder_paths := [m.physical_folder_path]
    all_audio_files_details := m.all_audio_files_details_in_folder
    is_multi_part := false
    part_display_name := none
    part_index_for_multi_part_parent := none }

/-- `part_display_name` of a member of a multi-part group (main.py lines
656-665); `i` is the member's position in the part-number-sorted group. -/
def partDisplayName (m : DerivedRec) (i : Nat) : String :=
  let desig :=
    if pyTruthy m.md.extracted_part_designation then m.md.extracted_part_designation.getD ""
    else "Part"
  match m.md.extracted_part_number, m.md.extracted_total_parts with
  | some pn, some pt =>
    let pad := max (natDigits pn.ip).length (natDigits pt).length
    "(" ++ desig ++ " " ++ zeroPadNat pad pn.ip ++ " of " ++ zeroPadNat pad pt ++ ")"
  | some pn, none => "(" ++ desig ++ " " ++ natStr pn.ip ++ ")"
  | none, _ => "(Part " ++ natStr (i + 1) ++ ")"

def partSortKey (m : DerivedRec) : Dec :=
  (m.md.extracted_part_number).getD (Dec.make 0 [])

def insertByPartNum (x : DerivedRec) : List DerivedRec → List DerivedRec
  | [] => [x]
  | y :: ys =>
    if Dec.ltB (partSortKey y) (partSortKey x) then y :: insertByPartNum x ys
    else x :: y :: ys

/-- The stable ascending sort of main.py line 646 (`list.sort` with the
extracted part number, `None` counting as `0`). -/
def sortByPartNum : List DerivedRec → List DerivedRec
  | [] => []
  | x :: xs => insertByPartNum x (sortByPartNum xs)

def mapWithIndexAux (f : Nat → α → β) : Nat → List α → List β
  | _, [] => []
  | i, x :: xs => f i x :: mapWithIndexAux f (i + 1) xs

def mapWithIndex (f : Nat → α → β) (l : List α) : List β := mapWithIndexAux f 0 l

/-- One part entry of a multi-part group (main.py lines 669-683). -/
def mkPartBook (k : LKey) (shared : String) (m : DerivedRec) (i : Nat) : LogicalBookInfo :=
  { author := k.1
    series_name := k.2.1
    series_book_num := k.2.2.1
    core_book_title := sanitize_filename shared
    publisher := m.md.publisher
    performer := m.md.performer
    book_has_embedded_image := m.book_has_embedded_image
    physical_folder_paths := [m.physical_folder_path]
    all_audio_files_details := m.all_audio_files_details_in_folder
    is_multi_part := true
    part_display_name := some (partDisplayName m i)
    part_index_for_multi_part_parent := some (i + 1) }

/-- Per-key processing of the second phase (main.py lines 595-683): a
single-member group becomes one non-multi-part book; a larger group becomes
one part entry per member, all sharing the longest-common-substring title
(with the `"… (Multi-Part)"` fallback when that is empty). -/
def processGroup (g : LKey × List DerivedRec) : List LogicalBookInfo :=
  match g with
  | (k, members) =>
    match members with
    | [m] => [mkSingleBook k m]
    | _ =>
      let titles := members.map fun m =>
        strip_part_info_from_title
          (pyOrStr m.md.title m.md.album (basenameStr m.physical_folder_path))
      let shared0 := find_longest_common_substring titles
      let shared :=
        if shared0 ≠ "" then shared0
        else
          pyStrip ((if pyTruthy k.2.1 then k.2.1.getD "" else "Book") ++ " " ++
            (match k.2.2.1 with | some n => n.pyStr | none => "")) ++ " (Multi-Part)"
      mapWithIndex (fun i m => mkPartBook k shared m i) (sortByPartNum members)

/-- The `(author, series-name-or-core-title)` ambiguity key of a final book
(main.py line 694). -/
def ambKeyOf (b : LogicalBookInfo) : String × String :=
  (b.author, if pyTruthy b.series_name then b.series_name.getD "" else b.core_book_title)

/-- The `(publisher, performer)` pair tracked per ambiguity key (main.py
lines 701-703; empty strings are recorded as `None`). -/
def pubPerfPair (b : LogicalBookInfo) : Option String × Option String :=
  (pyTruthyOpt b.publisher, pyTruthyOpt b.performer)

/-- Python `set.add` on a set modelled as a duplicate-free list in insertion
order. -/
def insertNew [DecidableEq α] (l : List α) (x : α) : List α :=
  if x ∈ l then l else l ++ [x]

def updateTracker :
    List ((String × String) × List (Option String × Option String)) →
    (String × String) → (Option String × Option String) →
    List ((String × String) × List (Option String × Option String))
  | [], k, p => [(k, [p])]
  | (k', ps) :: t, k, p =>
    if k' = k then (k', insertNew ps p) :: t
    else (k', ps) :: updateTracker t k p

def trackerStep (acc : List ((String × String) × List (Option String × Option String)))
    (b : LogicalBookInfo) :
    List ((String × String) × List (Option String × Option String)) :=
  updateTracker acc (ambKeyOf b) (pubPerfPair b)

/-- `temp_base_name_tracker` (main.py lines 687-703). -/
def buildTracker (books : List LogicalBookInfo) :
    List ((String × String) × List (Option String × Option String)) :=
  books.foldl trackerStep []

def ambStep (acc : List (String × String))
    (kv : (String × String) × List (Option String × Option String)) :
    List (String × String) :=
  if 1 < kv.2.length then acc ++ [kv.1] else acc

/-- `ambiguous_base_names` (main.py lines 705-707): the keys that saw more
than one distinct `(publisher, performer)` pair. -/
def ambiguousBaseNames (books : List LogicalBookInfo) : List (String × String) :=
  (buildTracker books).foldl ambStep []

def updateMax : List (String × Dec) → String → Dec → List (String × Dec)
  | [], k, n => [(k, n)]
  | (k', n') :: t, k, n =>
    if k' = k then (k', Dec.pyMax n' n) :: t
    else (k', n') :: updateMax t k n

def seriesMaxStep (acc : List (String × Dec)) (b : LogicalBookInfo) : List (String × Dec) :=
  match b.series_book_num with
  | some n => if pyTruthy b.series_name then updateMax acc (b.series_name.getD "") n else acc
  | none => acc

/-- `series_max_numbers` (main.py lines 712-720). -/
def buildSeriesMax (books : List LogicalBookInfo) : List (String × Dec) :=
  books.foldl seriesMaxStep []

structure GroupResult where
  books : List LogicalBookInfo
  series_max_numbers : List (String × Dec)
  ambiguous_base_names : List (String × String)
  deriving DecidableEq

/-- `group_physical_folders_into_logical_books` from `main.py` lines 496-724. -/
def group_physical_folders_into_logical_books
    (results : List PhysicalFolderResult) : GroupResult :=
  let derived := results.filterMap deriveRec
  let books := (groupBuckets derived).flatMap processGroup
  { books := books
    series_max_numbers := buildSeriesMax books
    ambiguous_base_names := ambiguousBaseNames books }

/-! ## Destination naming (the pure part of
`process_single_logical_book_or_part`, main.py lines 200-369) -/

/-- Association-list lookup (Python `dict` access on our insertion-ordered
representation; keys are unique by construction of the builders). -/
def lookupAssoc [DecidableEq κ] : List (κ × α) → κ → Option α
  | [], _ => none
  | (k, v) :: t, s => if k = s then some v else lookupAssoc t s

/-- The series-number folder name start (main.py lines 240-268): empty unless
a truthy series name and a number are present; otherwise the number's integer
part — zero-padded exactly when the series maximum's integer part is at least
10, to that integer part's digit count — keeps its fractional suffix and is
followed by `" - "`. -/
def seriesNumberPrefixStr (series_max_numbers : List (String × Dec))
    (info : LogicalBookInfo) : String :=
  if pyTruthy info.series_name ∧ info.series_book_num.isSome then
    let num := info.series_book_num.getD (Dec.make 0 [])
    let maxN := (lookupAssoc series_max_numbers (info.series_name.getD "")).getD num
    let padLen := if 10 ≤ maxN.ip then (natDigits maxN.ip).length else 1
    let fracStr := if num.frac.isEmpty then "" else "." ++ (digitsStr num.frac).asString
    let padded :=
      if 1 < padLen then zeroPadNat padLen num.ip ++ fracStr
      else natStr num.ip ++ fracStr
    padded ++ " - "
  else ""

/-- The ambiguity suffix (main.py lines 270-276): for an ambiguous
`(author, series-or-title)` pair, `" (Published by …)"` when the publisher is
truthy, else `" (Narrated by …)"` when the performer is truthy — in both
cases the inserted name goes through `normalize_publisher_name`. -/
def distinguisherStr (ambiguous : List (String × String)) (info : LogicalBookInfo) : String :=
  let checkBase :=
    if pyTruthy info.series_name then info.series_name.getD "" else info.core_book_title
  if (info.author, checkBase) ∈ ambiguous then
    if pyTruthy info.publisher then
      " (Published by " ++ normCoreStr (info.publisher.getD "") ++ ")"
    else if pyTruthy info.performer then
      " (Narrated by " ++ normCoreStr (info.performer.getD "") ++ ")"
    else ""
  else ""

/-- Python `str.strip('()')`. -/
def stripParens (s : String) : String := (stripCharsL ['(', ')'] s.toList).asString

/-- The series folder name (main.py line 281, before `sanitize_filename`). -/
def currentSeriesFolderName (ambiguous : List (String × String))
    (info : LogicalBookInfo) : String :=
  (info.series_name.getD "") ++ distinguisherStr ambiguous info

/-- The book folder name (main.py lines 287 and 291, before
`sanitize_filename`): with a series the ambiguity suffix is carried by the
series folder instead. -/
def baseBookFolderName (series_max_numbers : List (String × Dec))
    (ambiguous : List (String × String)) (info : LogicalBookInfo) : String :=
  if pyTruthy info.series_name then
    seriesNumberPrefixStr series_max_numbers info ++ info.core_book_title
  else
    seriesNumberPrefixStr series_max_numbers info ++ info.core_book_title ++
      distinguisherStr ambiguous info

/-- The destination folder path components of one logical book or part
(main.py lines 238-299), relative to the destination root. -/
def bookFolderSegments (series_max_numbers : List (String × Dec))
    (ambiguous : List (String × String)) (info : LogicalBookInfo) : List String :=
  let core := [info.author] ++
    (if pyTruthy info.series_name then
      [sanitize_filename (currentSeriesFolderName ambiguous info)] else []) ++
    [sanitize_filename (baseBookFolderName series_max_numbers ambiguous info)]
  if info.is_multi_part ∧ pyTruthy info.part_display_name then
    core ++ [sanitize_filename (stripParens (info.part_display_name.getD ""))]
  else core

/-- Parsing of the `track` and `TRACKTOTAL` tags (main.py lines 313-334),
including the partial-assignment behaviour of the `try` block: for `"n/m"`, a
parse failure on `m` still keeps `n`; `TRACKTOTAL` is consulted only when the
total is still unknown. -/
def parseTrackNums (md : AudioMeta) : Option Int × Option Int :=
  let p :=
    if pyTruthy md.track then
      let r := md.track.getD ""
      if containsSub r.toList ['/'] then
        let ps := r.splitOn "/"
        match pyInt (pyStrip (ps.headD "")) with
        | none => (none, none)
        | some n =>
          (some n, if 1 < ps.length then pyInt (pyStrip ((ps.drop 1).headD "")) else none)
      else (pyInt (pyStrip r), none)
    else (none, none)
  if pyTruthy md.TRACKTOTAL ∧ p.2 = none then
    (p.1, pyInt (pyStrip (md.TRACKTOTAL.getD "")))
  else p

/-- Track-number padding (main.py lines 336-341). -/
def trackPadding (numFiles : Nat) (tt : Option Int) : Nat :=
  match tt with
  | some t => max 2 (intStr t).length
  | none => if 1 < numFiles then max 2 (natStr numFiles).length else 2

def charListLt : List Char → List Char → Bool
  | [], [] => false
  | [], _ :: _ => true
  | _ :: _, [] => false
  | a :: as, b :: bs => a < b || (a = b && charListLt as bs)

/-- Python string `<` (code-point lexicographic). -/
def strLtB (a b : String) : Bool := charListLt a.toList b.toList

def insertStr (x : String) : List String → List String
  | [] => [x]
  | y :: ys => if strLtB y x then y :: insertStr x ys else x :: y :: ys

/-- Python `sorted` on strings. -/
def sortStrs : List String → List String
  | [] => []
  | x :: xs => insertStr x (sortStrs xs)

/-- The `" Track …"` filename suffix (main.py lines 343-354): omitted for a
single-file part; otherwise tag number with tag total, tag number alone, or —
with no parseable track number — the 1-based index of the file in the
path-sorted file list together with the part's file count. -/
def trackInfoForFilename (details : List AudioFileDetail) (d : AudioFileDetail) : String :=
  let p := parseTrackNums d.metadata
  let padding := trackPadding details.length p.2
  if 1 < details.length then
    match p.1, p.2 with
    | some n, some t =>
      " Track " ++ zeroPadInt padding n ++ " of " ++ zeroPadInt padding t
    | some n, none => " Track " ++ zeroPadInt padding n
    | none, _ =>
      let sortedPaths := sortStrs (details.map (·.file_path))
      let idx := sortedPaths.findIdx (· = d.file_path) + 1
      " Track " ++ zeroPadInt padding (idx : Int) ++ " of " ++
        zeroPadInt padding (details.length : Int)
  else ""

/-- The audio filename base (main.py lines 356-365): always the core book
title, extended with the de-parenthesised part label for a part of a
multi-part book. -/
def audioFileBaseName (info : LogicalBookInfo) : String :=
  if info.is_multi_part ∧ pyTruthy info.part_display_name then
    info.core_book_title ++ " - " ++ stripParens (info.part_display_name.getD "")
  else info.core_book_title

/-- The destination audio filename (main.py lines 367-369). -/
def finalAudioFileName (info : LogicalBookInfo) (details : List AudioFileDetail)
    (d : AudioFileDetail) : String :=
  sanitize_filename (audioFileBaseName info ++ trackInfoForFilename details d ++
    splitextExt d.file_path)

/-! ## Order lemmas for the decimal model -/

theorem fracLtB_irrefl (l : List Nat) : fracLtB l l = false := by
  induction l with
  | nil => rfl
  | cons a as ih => simp [fracLtB, ih]

theorem fracLtB_trans : ∀ (a b c : List Nat),
    fracLtB a b = true → fracLtB b c = true → fracLtB a c = true := by
  intro a
  induction a with
  | nil =>
    intro b c h1 h2
    cases b with
    | nil => simp [fracLtB] at h1
    | cons x xs =>
      cases c with
      | nil => simp [fracLtB] at h2
      | cons y ys => simp [fracLtB]
  | cons p ps ih =>
    intro b c h1 h2
    cases b with
    | nil => simp [fracLtB] at h1
    | cons x xs =>
      cases c with
      | nil => simp [fracLtB] at h2
      | cons y ys =>
        simp [fracLtB] at h1 h2 ⊢
        rcases h1 with h1 | ⟨he1, h1⟩
        · rcases h2 with h2 | ⟨he2, _⟩
          · exact Or.inl (Nat.lt_trans h1 h2)
          · exact Or.inl (he2 ▸ h1)
        · rcases h2 with h2 | ⟨he2, h2⟩
          · exact Or.inl (he1 ▸ h2)
          · exact Or.inr ⟨he1.trans he2, ih xs ys h1 h2⟩

theorem fracLtB_conn : ∀ (a b : List Nat),
    fracLtB a b = false → fracLtB b a = false → a = b := by
  intro a
  induction a with
  | nil =>
    intro b h1 _
    cases b with
    | nil => rfl
    | cons x xs => simp [fracLtB] at h1
  | cons p ps ih =>
    intro b h1 h2
    cases b with
    | nil => simp [fracLtB] at h2
    | cons x xs =>
      simp [fracLtB] at h1 h2
      have hpx : p = x := Nat.le_antisymm h2.1 h1.1
      subst hpx
      exact congrArg (p :: ·) (ih xs (h1.2 rfl) (h2.2 rfl))

theorem fracLtB_asymm {a b : List Nat} (h : fracLtB a b = true) : fracLtB b a = false := by
  cases hba : fracLtB b a with
  | false => rfl
  | true =>
    have := fracLtB_trans a b a h hba
    rw [fracLtB_irrefl] at this
    cases this

theorem Dec.ltB_irrefl (a : Dec) : Dec.ltB a a = false := by
  simp [Dec.ltB, fracLtB_irrefl]

theorem Dec.ltB_trans {a b c : Dec} (h1 : Dec.ltB a b = true) (h2 : Dec.ltB b c = true) :
    Dec.ltB a c = true := by
  simp [Dec.ltB] at h1 h2 ⊢
  rcases h1 with h1 | ⟨he1, h1⟩
  · rcases h2 with h2 | ⟨he2, _⟩
    · exact Or.inl (Nat.lt_trans h1 h2)
    · exact Or.inl (he2 ▸ h1)
  · rcases h2 with h2 | ⟨he2, h2⟩
    · exact Or.inl (he1 ▸ h2)
    · exact Or.inr ⟨he1.trans he2, fracLtB_trans _ _ _ h1 h2⟩

theorem Dec.ltB_conn (a b : Dec) (h1 : Dec.ltB a b = false) (h2 : Dec.ltB b a = false) :
    a = b := by
  simp [Dec.ltB] at h1 h2
  have hip : a.ip = b.ip := Nat.le_antisymm h2.1 h1.1
  have hfr : a.frac = b.frac := fracLtB_conn _ _ (h1.2 hip) (h2.2 hip.symm)
  apply Subtype.ext
  have : a.val = (a.ip, a.frac) := rfl
  rw [this, hip, hfr]
  rfl

theorem Dec.ltB_asymm {a b : Dec} (h : Dec.ltB a b = true) : Dec.ltB b a = false := by
  cases hba : Dec.ltB b a with
  | false => rfl
  | true =>
    have := Dec.ltB_trans h hba
    rw [Dec.ltB_irrefl] at this
    cases this

theorem Dec.pyMax_comm (a b : Dec) : Dec.pyMax a b = Dec.pyMax b a := by
  unfold Dec.pyMax
  cases hab : Dec.ltB a b with
  | true =>
    have hba := Dec.ltB_asymm hab
    simp [hba]
  | false =>
    cases hba : Dec.ltB b a with
    | true => simp
    | false => simp [Dec.ltB_conn a b hab hba]

theorem Dec.pyMax_assoc (a b c : Dec) :
    Dec.pyMax (Dec.pyMax a b) c = Dec.pyMax a (Dec.pyMax b c) := by
  unfold Dec.pyMax
  cases hab : Dec.ltB a b with
  | true =>
    cases hbc : Dec.ltB b c with
    | true =>
      have hac : Dec.ltB a c = true := Dec.ltB_trans hab hbc
      simp [hbc, hac]
    | false => simp [hbc, hab]
  | false =>
    cases hbc : Dec.ltB b c with
    | true =>
      cases hac : Dec.ltB a c with
      | true => simp [hbc, hac]
      | false => simp [hbc, hac]
    | false =>
      have hac : Dec.ltB a c = false := by
        cases hac : Dec.ltB a c with
        | false => rfl
        | true =>
          cases hcb : Dec.ltB c b with
          | true =>
            have : Dec.ltB a b = true := Dec.ltB_trans hac hcb
            rw [hab] at this
            cases this
          | false =>
            have hbceq : b = c := Dec.ltB_conn b c hbc hcb
            rw [hbceq, hac] at hab
            cases hab
      simp [hbc, hab, hac]

theorem Dec.pyMax_right_comm (a x y : Dec) :
    Dec.pyMax (Dec.pyMax a x) y = Dec.pyMax (Dec.pyMax a y) x := by
  rw [Dec.pyMax_assoc, Dec.pyMax_assoc, Dec.pyMax_comm x y]

/-! ## List and stripping lemmas -/

theorem mem_of_mem_dropWhile {p : α → Bool} {l : List α} {c : α}
    (h : c ∈ l.dropWhile p) : c ∈ l := by
  induction l with
  | nil => simp [List.dropWhile] at h
  | cons a t ih =>
    by_cases ha : p a
    · rw [List.dropWhile_cons_of_pos ha] at h
      exact List.mem_cons_of_mem a (ih h)
    · rwa [List.dropWhile_cons_of_neg ha] at h

theorem mem_of_mem_rstripWith {p : Char → Bool} {l : List Char} {c : Char}
    (h : c ∈ rstripWith p l) : c ∈ l := by
  induction l with
  | nil => simp [rstripWith] at h
  | cons a t ih =>
    simp only [rstripWith] at h
    by_cases he : (rstripWith p t).isEmpty
    · simp only [he, if_true] at h
      by_cases hp : p a
      · simp [hp] at h
      · simp [hp] at h
        simp [h]
    · simp only [he, if_false] at h
      rcases List.mem_cons.mp h with h | h
      · simp [h]
      · exact List.mem_cons_of_mem a (ih h)

theorem mem_of_mem_stripWith {p : Char → Bool} {l : List Char} {c : Char}
    (h : c ∈ stripWith p l) : c ∈ l :=
  mem_of_mem_dropWhile (mem_of_mem_rstripWith h)

theorem mem_of_mem_collapseWsAux {l : List Char} {c : Char} :
    ∀ (b : Bool), c ∈ collapseWsAux b l → c = ' ' ∨ c ∈ l := by
  induction l with
  | nil => intro b h; simp [collapseWsAux] at h
  | cons a t ih =>
    intro b h
    simp only [collapseWsAux] at h
    by_cases hw : isPyWs a
    · simp only [hw, if_true] at h
      cases b with
      | true =>
        rcases ih true h with h | h
        · exact Or.inl h
        · exact Or.inr (List.mem_cons_of_mem a h)
      | false =>
        rcases List.mem_cons.mp h with h | h
        · exact Or.inl h
        · rcases ih true h with h | h
          · exact Or.inl h
          · exact Or.inr (List.mem_cons_of_mem a h)
    · simp only [hw, if_false] at h
      rcases List.mem_cons.mp h with h | h
      · exact Or.inr (by simp [h])
      · rcases ih false h with h | h
        · exact Or.inl h
        · exact Or.inr (List.mem_cons_of_mem a h)

theorem dropWhile_noop {p : α → Bool} {l : List α}
    (h : ∀ c, l.head? = some c → p c = false) : l.dropWhile p = l := by
  cases l with
  | nil => rfl
  | cons a t => exact List.dropWhile_cons_of_neg (by simp [h a rfl])

theorem rstripWith_noop {p : Char → Bool} {l : List Char}
    (h : ∀ c, l.getLast? = some c → p c = false) : rstripWith p l = l := by
  induction l with
  | nil => rfl
  | cons a t ih =>
    cases t with
    | nil =>
      have := h a rfl
      simp [rstripWith, this]
    | cons b u =>
      have ht : rstripWith p (b :: u) = b :: u := by
        apply ih
        intro c hc
        exact h c (by rw [List.getLast?_cons_cons]; exact hc)
      show (let r := rstripWith p (b :: u);
        if r.isEmpty then (if p a then [] else [a]) else a :: r) = a :: b :: u
      rw [ht]
      simp

theorem stripWith_noop {p : Char → Bool} {l : List Char}
    (h1 : ∀ c, l.head? = some c → p c = false)
    (h2 : ∀ c, l.getLast? = some c → p c = false) : stripWith p l = l := by
  rw [stripWith, lstripWith, dropWhile_noop h1, rstripWith_noop h2]

theorem head?_rstripWith {p : Char → Bool} {l : List Char} {c : Char}
    (h : (rstripWith p l).head? = some c) : l.head? = some c := by
  induction l with
  | nil => simp [rstripWith] at h
  | cons a t ih =>
    simp only [rstripWith] at h
    by_cases he : (rstripWith p t).isEmpty
    · simp only [he, if_true] at h
      by_cases hp : p a
      · simp [hp] at h
      · simp [hp] at h
        simp [h]
    · simp only [he, if_false] at h
      simp at h
      simp [h]

theorem getLast?_rstripWith {p : Char → Bool} {l : List Char} {c : Char}
    (h : (rstripWith p l).getLast? = some c) : p c = false := by
  induction l with
  | nil => simp [rstripWith] at h
  | cons a t ih =>
    rcases hr : rstripWith p t with _ | ⟨b, u⟩
    · rw [show rstripWith p (a :: t) = (let r := rstripWith p t;
        if r.isEmpty then (if p a then [] else [a]) else a :: r) from rfl, hr] at h
      by_cases hp : p a
      · simp [hp] at h
      · simp [hp] at h
        rw [← h]
        simpa using hp
    · rw [show rstripWith p (a :: t) = (let r := rstripWith p t;
        if r.isEmpty then (if p a then [] else [a]) else a :: r) from rfl, hr] at h
      simp only [List.isEmpty_cons, Bool.false_eq_true, if_false] at h
      rw [List.getLast?_cons_cons] at h
      exact ih (hr ▸ h)

theorem head?_stripWith {p : Char → Bool} {l : List Char} {c : Char}
    (h : (stripWith p l).head? = some c) : p c = false :=
  head?_dropWhile_ne _ _ (head?_rstripWith h)

theorem getLast?_stripWith {p : Char → Bool} {l : List Char} {c : Char}
    (h : (stripWith p l).getLast? = some c) : p c = false :=
  getLast?_rstripWith h

theorem stripWith_idem (p : Char → Bool) (l : List Char) :
    stripWith p (stripWith p l) = stripWith p l :=
  stripWith_noop (fun _ hc => head?_stripWith hc) (fun _ hc => getLast?_stripWith hc)

/-! ## Identity lemmas for the global substitutions -/

theorem gsubAux_id (m : Matcher) :
    ∀ (fuel : Nat) (l : List Char), (∀ l', (∀ c ∈ l', c ∈ l) → m l' = none) →
      gsubAux m fuel l = l := by
  intro fuel
  induction fuel with
  | zero => intro l _; rfl
  | succ f ih =>
    intro l h
    have hm : m l = none := h l (fun _ hc => hc)
    cases l with
    | nil => simp [gsubAux, hm]
    | cons c t =>
      simp only [gsubAux, hm]
      exact congrArg (c :: ·)
        (ih t (fun l' h' => h l' (fun x hx => List.mem_cons_of_mem c (h' x hx))))

theorem gsubL_id {m : Matcher} {l : List Char}
    (h : ∀ l', (∀ c ∈ l', c ∈ l) → m l' = none) : gsubL m l = l :=
  gsubAux_id m _ l h

theorem mAfterWsChar_not_mem {req : Char} {k : Matcher} {l : List Char}
    (h : req ∉ l) : mAfterWsChar req k l = none := by
  unfold mAfterWsChar
  cases hd : l.dropWhile isPyWs with
  | nil => rfl
  | cons c t =>
    have hmem : c ∈ l := mem_of_mem_dropWhile (hd ▸ List.mem_cons_self c t)
    have hne : ¬ c = req := fun he => h (he ▸ hmem)
    simp [hne]

theorem partPattern_none {l' : List Char}
    (h1 : '(' ∉ l') (h2 : '[' ∉ l') (h3 : '-' ∉ l') :
    ∀ p ∈ partInfoPatterns, p l' = none := by
  intro p hp
  simp only [partInfoPatterns, List.mem_cons, List.not_mem_nil, or_false] at hp
  rcases hp with rfl | rfl | rfl | rfl | rfl | rfl | rfl | rfl | rfl | rfl | rfl
  · exact mAfterWsChar_not_mem h1
  · exact mAfterWsChar_not_mem h1
  · exact mAfterWsChar_not_mem h1
  · exact mAfterWsChar_not_mem h1
  · exact mAfterWsChar_not_mem h2
  · exact mAfterWsChar_not_mem h2
  · exact mAfterWsChar_not_mem h2
  · exact mAfterWsChar_not_mem h2
  · exact mAfterWsChar_not_mem h3
  · exact mAfterWsChar_not_mem h3
  · exact mAfterWsChar_not_mem h1

/-! ## Association-list lemmas -/

theorem lookupAssoc_mem [DecidableEq κ] {l : List (κ × α)} {k : κ} {v : α}
    (h : lookupAssoc l k = some v) : (k, v) ∈ l := by
  induction l with
  | nil => simp [lookupAssoc] at h
  | cons kv t ih =>
    obtain ⟨k', v'⟩ := kv
    by_cases he : k' = k
    · subst he
      simp [lookupAssoc] at h
      simp [h]
    · simp only [lookupAssoc, he, if_false] at h
      exact List.mem_cons_of_mem _ (ih h)

theorem mem_lookupAssoc_of_nodup [DecidableEq κ] :
    ∀ {l : List (κ × α)}, (l.map Prod.fst).Nodup →
      ∀ {k : κ} {v : α}, (k, v) ∈ l → lookupAssoc l k = some v := by
  intro l
  induction l with
  | nil => intro _ k v h; simp at h
  | cons kv t ih =>
    intro hn k v h
    obtain ⟨k', v'⟩ := kv
    rw [List.map_cons, List.nodup_cons] at hn
    rcases List.mem_cons.mp h with h | h
    · rw [Prod.mk.injEq] at h
      obtain ⟨rfl, rfl⟩ := h
      simp [lookupAssoc]
    · have hk : k ∈ t.map Prod.fst := List.mem_map_of_mem Prod.fst h
      have hne : ¬ k' = k := fun he => hn.1 (he ▸ hk)
      simp only [lookupAssoc, hne, if_false]
      exact ih hn.2 h

/-! ## Characterisation of the series-max map -/

/-- One fold step of the maximum computation: combine the running optional
maximum with a new number (Python `max`, first on first sight). -/
def pyMaxStep (acc : Option Dec) (x : Dec) : Option Dec :=
  some (match acc with | none => x | some a => Dec.pyMax a x)

instance : RightCommutative pyMaxStep := ⟨by
  intro b a1 a2
  cases b with
  | none => simp [pyMaxStep, Dec.pyMax_comm]
  | some a => simp [pyMaxStep, Dec.pyMax_right_comm]⟩

def foldPyMax (o : Option Dec) (l : List Dec) : Option Dec := l.foldl pyMaxStep o

/-- The number a final book contributes to series `name` (if any). -/
def seriesContrib (name : String) (b : LogicalBookInfo) : Option Dec :=
  match b.series_book_num with
  | some n => if pyTruthy b.series_name ∧ b.series_name.getD "" = name then some n else none
  | none => none

theorem lookupAssoc_updateMax (acc : List (String × Dec)) (k : String) (n : Dec)
    (name : String) :
    lookupAssoc (updateMax acc k n) name =
      if k = name then
        some (match lookupAssoc acc name with | none => n | some a => Dec.pyMax a n)
      else lookupAssoc acc name := by
  induction acc with
  | nil =>
    by_cases h : k = name <;> simp [updateMax, lookupAssoc, h]
  | cons kv t ih =>
    obtain ⟨k', v⟩ := kv
    by_cases h1 : k' = k
    · subst h1
      by_cases h2 : k' = name <;> simp [updateMax, lookupAssoc, h2]
    · by_cases h2 : k' = name
      · subst h2
        have hkn : ¬ k = k' := fun he => h1 he.symm
        simp [updateMax, lookupAssoc, h1, hkn]
      · simp [updateMax, lookupAssoc, h1, h2, ih]

theorem lookupAssoc_foldSeriesMax :
    ∀ (books : List LogicalBookInfo) (acc : List (String × Dec)) (name : String),
      lookupAssoc (books.foldl seriesMaxStep acc) name =
        foldPyMax (lookupAssoc acc name) (books.filterMap (seriesContrib name)) := by
  intro books
  induction books with
  | nil => intro acc name; rfl
  | cons b bs ih =>
    intro acc name
    rw [List.foldl_cons, ih]
    rcases hn : b.series_book_num with _ | n
    · rw [List.filterMap_cons]
      simp only [seriesContrib, hn]
      simp [seriesMaxStep, hn]
    · by_cases ht : pyTruthy b.series_name
      · by_cases hname : b.series_name.getD "" = name
        · rw [List.filterMap_cons]
          simp only [seriesContrib, hn, ht, hname, and_self, if_true, true_and]
          rw [show seriesMaxStep acc b = updateMax acc (b.series_name.getD "") n by
            simp [seriesMaxStep, hn, ht]]
          rw [hname]
          rw [show foldPyMax (lookupAssoc acc name) (n :: bs.filterMap (seriesContrib name)) =
            foldPyMax (pyMaxStep (lookupAssoc acc name) n) (bs.filterMap (seriesContrib name))
            from rfl]
          congr 1
          rw [lookupAssoc_updateMax]
          simp [pyMaxStep]
        · rw [List.filterMap_cons]
          simp only [seriesContrib, hn, ht, hname, and_false, true_and, if_false]
          rw [show seriesMaxStep acc b = updateMax acc (b.series_name.getD "") n by
            simp [seriesMaxStep, hn, ht]]
          congr 1
          rw [lookupAssoc_updateMax]
          simp [hname]
      · rw [List.filterMap_cons]
        simp only [seriesContrib, hn, ht, false_and, if_false]
        simp [seriesMaxStep, hn, ht]

theorem lookupAssoc_buildSeriesMax (books : List LogicalBookInfo) (name : String) :
    lookupAssoc (buildSeriesMax books) name =
      foldPyMax none (books.filterMap (seriesContrib name)) :=
  lookupAssoc_foldSeriesMax books [] name

theorem foldPyMax_perm {l1 l2 : List Dec} (h : l1.Perm l2) (o : Option Dec) :
    foldPyMax o l1 = foldPyMax o l2 :=
  h.foldl_eq o

/-- The series-max map is a permutation-invariant of the final book list. -/
theorem lookupAssoc_buildSeriesMax_perm {books1 books2 : List LogicalBookInfo}
    (h : books1.Perm books2) (name : String) :
    lookupAssoc (buildSeriesMax books1) name = lookupAssoc (buildSeriesMax books2) name := by
  rw [lookupAssoc_buildSeriesMax, lookupAssoc_buildSeriesMax]
  exact foldPyMax_perm (h.filterMap (seriesContrib name)) none

/-! ## Characterisation of the ambiguous-name set -/

/-- The `(publisher, performer)` pair a final book contributes to the tracker
entry of key `k` (if any). -/
def pairContrib (k : String × String) (b : LogicalBookInfo) :
    Option (Option String × Option String) :=
  if ambKeyOf b = k then some (pubPerfPair b) else none

/-- Folding pairs into an optional tracker set (the `None` state means the
key has not been seen yet). -/
def trackFoldOpt (o : Option (List (Option String × Option String)))
    (l : List (Option String × Option String)) :
    Option (List (Option String × Option String)) :=
  l.foldl (fun cur p => some (insertNew (cur.getD []) p)) o

theorem mem_insertNew [DecidableEq α] {l : List α} {x y : α} :
    y ∈ insertNew l x ↔ y ∈ l ∨ y = x := by
  unfold insertNew
  by_cases h : x ∈ l
  · simp only [h, if_true]
    constructor
    · exact Or.inl
    · rintro (hy | rfl)
      · exact hy
      · exact h
  · simp [h]

theorem nodup_insertNew [DecidableEq α] {l : List α} (hn : l.Nodup) (x : α) :
    (insertNew l x).Nodup := by
  unfold insertNew
  by_cases h : x ∈ l
  · simpa [h]
  · simp [h, List.nodup_append, hn]

theorem mem_foldl_insertNew [DecidableEq α] :
    ∀ (l : List α) (acc : List α) (x : α),
      x ∈ l.foldl insertNew acc ↔ x ∈ acc ∨ x ∈ l := by
  intro l
  induction l with
  | nil => intro acc x; simp
  | cons p t ih =>
    intro acc x
    rw [List.foldl_cons, ih]
    rw [mem_insertNew]
    simp only [List.mem_cons]
    tauto

theorem nodup_foldl_insertNew [DecidableEq α] :
    ∀ (l : List α) (acc : List α), acc.Nodup → (l.foldl insertNew acc).Nodup := by
  intro l
  induction l with
  | nil => intro acc h; exact h
  | cons p t ih =>
    intro acc h
    exact ih _ (nodup_insertNew h p)

theorem one_lt_length_of_two_mem {l : List α} {a b : α}
    (ha : a ∈ l) (hb : b ∈ l) (hne : a ≠ b) : 1 < l.length := by
  cases l with
  | nil => simp at ha
  | cons x t =>
    cases t with
    | nil =>
      simp at ha hb
      exact absurd (ha.trans hb.symm) hne
    | cons y u => simp [Nat.lt_add_of_pos_left]

theorem two_distinct_of_nodup_one_lt {l : List α} (hn : l.Nodup) (hl : 1 < l.length) :
    ∃ a ∈ l, ∃ b ∈ l, a ≠ b := by
  cases l with
  | nil => simp at hl
  | cons x t =>
    cases t with
    | nil => simp at hl
    | cons y u =>
      rw [List.nodup_cons] at hn
      exact ⟨x, by simp, y, by simp, fun he => hn.1 (he ▸ List.mem_cons_self y u)⟩

theorem trackFoldOpt_some :
    ∀ (l : List (Option String × Option String)) (acc : List (Option String × Option String)),
      trackFoldOpt (some acc) l = some (l.foldl insertNew acc) := by
  intro l
  induction l with
  | nil => intro acc; rfl
  | cons p t ih =>
    intro acc
    rw [show trackFoldOpt (some acc) (p :: t) = trackFoldOpt (some (insertNew acc p)) t from rfl]
    rw [ih, List.foldl_cons]

theorem trackFoldOpt_none_cons (p : Option String × Option String)
    (t : List (Option String × Option String)) :
    trackFoldOpt none (p :: t) = some ((p :: t).foldl insertNew []) := by
  rw [show trackFoldOpt none (p :: t) = trackFoldOpt (some (insertNew [] p)) t from rfl]
  rw [trackFoldOpt_some, List.foldl_cons]

theorem lookupAssoc_updateTracker
    (acc : List ((String × String) × List (Option String × Option String)))
    (k : String × String) (p : Option String × Option String) (q : String × String) :
    lookupAssoc (updateTracker acc k p) q =
      if k = q then some (insertNew ((lookupAssoc acc q).getD []) p)
      else lookupAssoc acc q := by
  induction acc with
  | nil =>
    by_cases h : k = q <;> simp [updateTracker, lookupAssoc, insertNew, h]
  | cons kv t ih =>
    obtain ⟨k', v⟩ := kv
    by_cases h1 : k' = k
    · subst h1
      by_cases h2 : k' = q <;> simp [updateTracker, lookupAssoc, h2]
    · by_cases h2 : k' = q
      · subst h2
        have hkn : ¬ k = k' := fun he => h1 he.symm
        simp [updateTracker, lookupAssoc, h1, hkn]
      · simp [updateTracker, lookupAssoc, h1, h2, ih]

theorem lookupAssoc_foldTracker :
    ∀ (books : List LogicalBookInfo)
      (acc : List ((String × String) × List (Option String × Option String)))
      (k : String × String),
      lookupAssoc (books.foldl trackerStep acc) k =
        trackFoldOpt (lookupAssoc acc k) (books.filterMap (pairContrib k)) := by
  intro books
  induction books with
  | nil => intro acc k; rfl
  | cons b bs ih =>
    intro acc k
    rw [List.foldl_cons, ih]
    rw [List.filterMap_cons]
    by_cases hk : ambKeyOf b = k
    · simp only [pairContrib, hk, if_true]
      rw [show trackFoldOpt (lookupAssoc acc k) (pubPerfPair b :: bs.filterMap (pairContrib k)) =
        trackFoldOpt (some (insertNew ((lookupAssoc acc k).getD []) (pubPerfPair b)))
          (bs.filterMap (pairContrib k)) from rfl]
      congr 1
      rw [show trackerStep acc b = updateTracker acc (ambKeyOf b) (pubPerfPair b) from rfl]
      rw [lookupAssoc_updateTracker]
      simp [hk]
    · simp only [pairContrib, hk, if_false]
      congr 1
      rw [show trackerStep acc b = updateTracker acc (ambKeyOf b) (pubPerfPair b) from rfl]
      rw [lookupAssoc_updateTracker]
      simp [hk]

theorem keys_updateTracker
    (acc : List ((String × String) × List (Option String × Option String)))
    (k : String × String) (p : Option String × Option String) :
    (updateTracker acc k p).map Prod.fst =
      if k ∈ acc.map Prod.fst then acc.map Prod.fst else acc.map Prod.fst ++ [k] := by
  induction acc with
  | nil => simp [updateTracker]
  | cons kv t ih =>
    obtain ⟨k', v⟩ := kv
    by_cases h1 : k' = k
    · subst h1
      simp [updateTracker]
    · have hkn : ¬ k = k' := fun he => h1 he.symm
      simp only [updateTracker, h1, if_false, List.map_cons, List.mem_cons, hkn, false_or, ih]
      by_cases h2 : k ∈ t.map Prod.fst <;> simp [h2, hkn]

theorem nodup_keys_foldTracker :
    ∀ (books : List LogicalBookInfo)
      (acc : List ((String × String) × List (Option String × Option String))),
      (acc.map Prod.fst).Nodup → ((books.foldl trackerStep acc).map Prod.fst).Nodup := by
  intro books
  induction books with
  | nil => intro acc h; exact h
  | cons b bs ih =>
    intro acc h
    rw [List.foldl_cons]
    apply ih
    rw [show trackerStep acc b = updateTracker acc (ambKeyOf b) (pubPerfPair b) from rfl]
    rw [keys_updateTracker]
    by_cases hm : ambKeyOf b ∈ acc.map Prod.fst
    · simpa [hm]
    · simp only [hm, if_false]
      simp [List.nodup_append, h, hm]

theorem mem_foldl_ambStep :
    ∀ (t : List ((String × String) × List (Option String × Option String)))
      (acc : List (String × String)) (x : String × String),
      x ∈ t.foldl ambStep acc ↔ x ∈ acc ∨ ∃ kv ∈ t, kv.1 = x ∧ 1 < kv.2.length := by
  intro t
  induction t with
  | nil => intro acc x; simp
  | cons kv u ih =>
    intro acc x
    rw [List.foldl_cons, ih]
    unfold ambStep
    by_cases hl : 1 < kv.2.length
    · simp only [hl, if_true, List.mem_append, List.mem_singleton, List.mem_cons,
        List.not_mem_nil, or_false]
      constructor
      · rintro (⟨h | h⟩ | ⟨kw, hkw, h1, h2⟩)
        · exact Or.inl h
        · exact Or.inr ⟨kv, Or.inl rfl, h.symm, hl⟩
        · exact Or.inr ⟨kw, Or.inr hkw, h1, h2⟩
      · rintro (h | ⟨kw, hkw | hkw, h1, h2⟩)
        · exact Or.inl (Or.inl h)
        · subst hkw
          exact Or.inl (Or.inr h1.symm)
        · exact Or.inr ⟨kw, hkw, h1, h2⟩
    · simp only [hl, if_false, List.mem_cons]
      constructor
      · rintro (h | ⟨kw, hkw, h1, h2⟩)
        · exact Or.inl h
        · exact Or.inr ⟨kw, Or.inr hkw, h1, h2⟩
      · rintro (h | ⟨kw, hkw | hkw, h1, h2⟩)
        · exact Or.inl h
        · exact absurd (hkw ▸ h2) hl
        · exact Or.inr ⟨kw, hkw, h1, h2⟩

/-- The membership characterisation of `ambiguous_base_names`: a pair is
ambiguous exactly when two final books with that `(author, base-name)` key
carry distinct `(publisher, performer)` pairs. -/
theorem mem_ambiguousBaseNames_iff (books : List LogicalBookInfo) (k : String × String) :
    k ∈ ambiguousBaseNames books ↔
      ∃ b1 ∈ books, ∃ b2 ∈ books, ambKeyOf b1 = k ∧ ambKeyOf b2 = k ∧
        pubPerfPair b1 ≠ pubPerfPair b2 := by
  constructor
  · intro h
    rw [ambiguousBaseNames, mem_foldl_ambStep] at h
    rcases h with h | ⟨kv, hkv, hk1, hlen⟩
    · simp at h
    · have hlk : lookupAssoc (buildTracker books) kv.1 = some kv.2 := by
        apply mem_lookupAssoc_of_nodup (nodup_keys_foldTracker books [] (by simp))
        rw [Prod.mk.eta]
        exact hkv
      rw [show buildTracker books = books.foldl trackerStep [] from rfl,
        lookupAssoc_foldTracker,
        show (lookupAssoc ([] : List ((String × String) × List (Option String × Option String)))
          kv.1) = none from rfl] at hlk
      rcases hps : books.filterMap (pairContrib kv.1) with _ | ⟨p, rest⟩
      · rw [hps] at hlk
        cases hlk
      · rw [hps, trackFoldOpt_none_cons] at hlk
        have hv : kv.2 = (p :: rest).foldl insertNew [] := (Option.some.injEq _ _ ▸ hlk).symm
        rw [hv] at hlen
        obtain ⟨p1, hp1, p2, hp2, hpne⟩ :=
          two_distinct_of_nodup_one_lt (nodup_foldl_insertNew _ [] (by simp)) hlen
        rw [mem_foldl_insertNew] at hp1 hp2
        have hp1' : p1 ∈ p :: rest := hp1.resolve_left (by simp)
        have hp2' : p2 ∈ p :: rest := hp2.resolve_left (by simp)
        rw [← hps] at hp1' hp2'
        obtain ⟨b1, hb1, hc1⟩ := List.mem_filterMap.mp hp1'
        obtain ⟨b2, hb2, hc2⟩ := List.mem_filterMap.mp hp2'
        unfold pairContrib at hc1 hc2
        by_cases ha1 : ambKeyOf b1 = kv.1
        · by_cases ha2 : ambKeyOf b2 = kv.1
          · simp only [ha1, ha2, if_true] at hc1 hc2
            refine ⟨b1, hb1, b2, hb2, hk1 ▸ ha1, hk1 ▸ ha2, ?_⟩
            rw [Option.some.injEq] at hc1 hc2
            rw [hc1, hc2]
            exact hpne
          · simp [ha2] at hc2
        · simp [ha1] at hc1
  · rintro ⟨b1, hb1, b2, hb2, hk1, hk2, hne⟩
    have hp1 : pubPerfPair b1 ∈ books.filterMap (pairContrib k) :=
      List.mem_filterMap.mpr ⟨b1, hb1, by simp [pairContrib, hk1]⟩
    have hp2 : pubPerfPair b2 ∈ books.filterMap (pairContrib k) :=
      List.mem_filterMap.mpr ⟨b2, hb2, by simp [pairContrib, hk2]⟩
    rcases hps : books.filterMap (pairContrib k) with _ | ⟨p, rest⟩
    · rw [hps] at hp1; simp at hp1
    · have hlk : lookupAssoc (buildTracker books) k = some ((p :: rest).foldl insertNew []) := by
        rw [show buildTracker books = books.foldl trackerStep [] from rfl,
          lookupAssoc_foldTracker]
        rw [show lookupAssoc ([] :
          List ((String × String) × List (Option String × Option String))) k = none from rfl]
        rw [hps, trackFoldOpt_none_cons]
      have hmem : (k, (p :: rest).foldl insertNew []) ∈ buildTracker books :=
        lookupAssoc_mem hlk
      have hlen : 1 < ((p :: rest).foldl insertNew []).length := by
        apply one_lt_length_of_two_mem (a := pubPerfPair b1) (b := pubPerfPair b2) _ _ hne
        · rw [mem_foldl_insertNew]
          exact Or.inr (hps ▸ hp1)
        · rw [mem_foldl_insertNew]
          exact Or.inr (hps ▸ hp2)
      rw [ambiguousBaseNames, mem_foldl_ambStep]
      exact Or.inr ⟨(k, (p :: rest).foldl insertNew []), hmem, rfl, hlen⟩

/-- The ambiguous-name set is (as a set) a permutation-invariant of the final
book list. -/
theorem mem_ambiguousBaseNames_perm {books1 books2 : List LogicalBookInfo}
    (h : books1.Perm books2) (k : String × String) :
    k ∈ ambiguousBaseNames books1 ↔ k ∈ ambiguousBaseNames books2 := by
  rw [mem_ambiguousBaseNames_iff, mem_ambiguousBaseNames_iff]
  constructor
  · rintro ⟨b1, hb1, b2, hb2, h1, h2, hne⟩
    exact ⟨b1, h.mem_iff.mp hb1, b2, h.mem_iff.mp hb2, h1, h2, hne⟩
  · rintro ⟨b1, hb1, b2, hb2, h1, h2, hne⟩
    exact ⟨b1, h.mem_iff.mpr hb1, b2, h.mem_iff.mpr hb2, h1, h2, hne⟩

/-! ## Bucket lemmas for the grouping dictionary -/

/-- Every record in a bucket carries the bucket's key. -/
def bucketKeyInv (acc : List (LKey × List DerivedRec)) : Prop :=
  ∀ k ms, (k, ms) ∈ acc → ∀ d ∈ ms, d.key = k

theorem bucketKeyInv_updateAppendB :
    ∀ (acc : List (LKey × List DerivedRec)) (d0 : DerivedRec),
      bucketKeyInv acc → bucketKeyInv (updateAppendB acc d0.key d0) := by
  intro acc d0
  induction acc with
  | nil =>
    intro _ k ms hm d hd
    simp only [updateAppendB, List.mem_singleton, Prod.mk.injEq] at hm
    obtain ⟨rfl, rfl⟩ := hm
    simp only [List.mem_singleton] at hd
    subst hd
    rfl
  | cons kv t ih =>
    intro hinv k ms hm d hd
    obtain ⟨k', ds⟩ := kv
    have hinvt : bucketKeyInv t := fun k0 ms0 h0 => hinv k0 ms0 (List.mem_cons_of_mem _ h0)
    by_cases he : k' = d0.key
    · subst he
      simp only [updateAppendB, if_true, List.mem_cons, Prod.mk.injEq] at hm
      rcases hm with ⟨rfl, rfl⟩ | hm
      · rcases List.mem_append.mp hd with hd | hd
        · exact hinv _ ds (List.mem_cons_self _ _) d hd
        · simp only [List.mem_singleton] at hd
          subst hd
          rfl
      · exact hinvt k ms hm d hd
    · simp only [updateAppendB, he, if_false, List.mem_cons, Prod.mk.injEq] at hm
      rcases hm with ⟨rfl, rfl⟩ | hm
      · exact hinv _ _ (List.mem_cons_self _ _) d hd
      · exact ih hinvt _ ms hm d hd

theorem bucketKeyInv_foldBuckets :
    ∀ (rs : List DerivedRec) (acc : List (LKey × List DerivedRec)),
      bucketKeyInv acc →
      bucketKeyInv (rs.foldl (fun acc d => updateAppendB acc d.key d) acc) := by
  intro rs
  induction rs with
  | nil => intro acc h; exact h
  | cons r t ih =>
    intro acc h
    exact ih _ (bucketKeyInv_updateAppendB acc r h)

theorem bucketKeyInv_groupBuckets (rs : List DerivedRec) :
    bucketKeyInv (groupBuckets rs) :=
  bucketKeyInv_foldBuckets rs [] (fun k ms hm => by simp at hm)

theorem exists_mem_updateAppendB_self :
    ∀ (acc : List (LKey × List DerivedRec)) (k : LKey) (d : DerivedRec),
      ∃ ms, (k, ms) ∈ updateAppendB acc k d ∧ d ∈ ms := by
  intro acc k d
  induction acc with
  | nil => exact ⟨[d], by simp [updateAppendB]⟩
  | cons kv t ih =>
    obtain ⟨k', ds⟩ := kv
    by_cases he : k' = k
    · subst he
      exact ⟨ds ++ [d], by simp [updateAppendB]⟩
    · obtain ⟨ms, hm, hd⟩ := ih
      exact ⟨ms, by simp [updateAppendB, he, hm], hd⟩

theorem mem_updateAppendB_mono :
    ∀ (acc : List (LKey × List DerivedRec)) (k : LKey) (ms : List DerivedRec)
      (k1 : LKey) (d1 : DerivedRec), (k, ms) ∈ acc →
      ∃ ms', (k, ms') ∈ updateAppendB acc k1 d1 ∧ ∀ d ∈ ms, d ∈ ms' := by
  intro acc k ms k1 d1 hm
  induction acc with
  | nil => simp at hm
  | cons kv t ih =>
    obtain ⟨k', ds⟩ := kv
    rcases List.mem_cons.mp hm with h | h
    · rw [Prod.mk.injEq] at h
      obtain ⟨rfl, rfl⟩ := h
      by_cases he : k = k1
      · subst he
        exact ⟨ms ++ [d1], by simp [updateAppendB], fun d hd => List.mem_append_left _ hd⟩
      · exact ⟨ms, by simp [updateAppendB, he], fun d hd => hd⟩
    · by_cases he : k' = k1
      · subst he
        exact ⟨ms, by simp [updateAppendB, h], fun d hd => hd⟩
      · obtain ⟨ms', hm', hsub⟩ := ih h
        exact ⟨ms', by simp [updateAppendB, he, hm'], hsub⟩

theorem exists_bucket_foldBuckets :
    ∀ (rs : List DerivedRec) (acc : List (LKey × List DerivedRec)) (d : DerivedRec),
      ((∃ ms, (d.key, ms) ∈ acc ∧ d ∈ ms) ∨ d ∈ rs) →
      ∃ ms, (d.key, ms) ∈ rs.foldl (fun acc d => updateAppendB acc d.key d) acc ∧ d ∈ ms := by
  intro rs
  induction rs with
  | nil =>
    intro acc d h
    rcases h with h | h
    · exact h
    · simp at h
  | cons r t ih =>
    intro acc d h
    rw [List.foldl_cons]
    rcases h with ⟨ms, hm, hd⟩ | h
    · obtain ⟨ms', hm', hsub⟩ := mem_updateAppendB_mono acc d.key ms r.key r hm
      exact ih _ d (Or.inl ⟨ms', hm', hsub d hd⟩)
    · rcases List.mem_cons.mp h with rfl | h
      · exact ih _ d (Or.inl (exists_mem_updateAppendB_self acc d.key d))
      · exact ih _ d (Or.inr h)

/-- Every derived record lands in the bucket of its own key. -/
theorem exists_bucket_groupBuckets {rs : List DerivedRec} {d : DerivedRec}
    (h : d ∈ rs) : ∃ ms, (d.key, ms) ∈ groupBuckets rs ∧ d ∈ ms :=
  exists_bucket_foldBuckets rs [] d (Or.inr h)

theorem keys_updateAppendB (acc : List (LKey × List DerivedRec)) (k : LKey)
    (d : DerivedRec) :
    (updateAppendB acc k d).map Prod.fst =
      if k ∈ acc.map Prod.fst then acc.map Prod.fst else acc.map Prod.fst ++ [k] := by
  induction acc with
  | nil => simp [updateAppendB]
  | cons kv t ih =>
    obtain ⟨k', ds⟩ := kv
    by_cases h1 : k' = k
    · subst h1
      simp [updateAppendB]
    · have hkn : ¬ k = k' := fun he => h1 he.symm
      simp only [updateAppendB, h1, if_false, List.map_cons, List.mem_cons, hkn, false_or, ih]
      by_cases h2 : k ∈ t.map Prod.fst <;> simp [h2, hkn]

theorem nodup_keys_foldBuckets :
    ∀ (rs : List DerivedRec) (acc : List (LKey × List DerivedRec)),
      (acc.map Prod.fst).Nodup →
      ((rs.foldl (fun acc d => updateAppendB acc d.key d) acc).map Prod.fst).Nodup := by
  intro rs
  induction rs with
  | nil => intro acc h; exact h
  | cons r t ih =>
    intro acc h
    rw [List.foldl_cons]
    apply ih
    rw [keys_updateAppendB]
    by_cases hm : r.key ∈ acc.map Prod.fst
    · simpa [hm]
    · simp only [hm, if_false]
      simp [List.nodup_append, h, hm]

theorem nodup_keys_groupBuckets (rs : List DerivedRec) :
    ((groupBuckets rs).map Prod.fst).Nodup :=
  nodup_keys_foldBuckets rs [] (by simp)

theorem bucket_unique_of_key {rs : List DerivedRec} {k : LKey}
    {ms1 ms2 : List DerivedRec} (h1 : (k, ms1) ∈ groupBuckets rs)
    (h2 : (k, ms2) ∈ groupBuckets rs) : ms1 = ms2 := by
  have e1 := mem_lookupAssoc_of_nodup (nodup_keys_groupBuckets rs) h1
  have e2 := mem_lookupAssoc_of_nodup (nodup_keys_groupBuckets rs) h2
  rw [e1] at e2
  exact (Option.some.injEq _ _ ▸ e2)

/-! ## The grouping dictionary under pairwise-distinct keys -/

theorem updateAppendB_not_mem :
    ∀ {acc : List (LKey × List DerivedRec)} {k : LKey}, k ∉ acc.map Prod.fst →
      ∀ (d : DerivedRec), updateAppendB acc k d = acc ++ [(k, [d])] := by
  intro acc
  induction acc with
  | nil => intro k _ d; rfl
  | cons kv t ih =>
    intro k hk d
    obtain ⟨k', ds⟩ := kv
    simp only [List.map_cons, List.mem_cons] at hk
    push_neg at hk
    have hne : ¬ k' = k := fun he => hk.1 he.symm
    simp only [updateAppendB, hne, if_false, List.cons_append, List.cons.injEq, true_and]
    exact ih hk.2 d

theorem foldBuckets_nodup_eq :
    ∀ (rs : List DerivedRec) (acc : List (LKey × List DerivedRec)),
      (acc.map Prod.fst ++ rs.map DerivedRec.key).Nodup →
      rs.foldl (fun acc d => updateAppendB acc d.key d) acc =
        acc ++ rs.map fun d => (d.key, [d]) := by
  intro rs
  induction rs with
  | nil => intro acc _; simp
  | cons r t ih =>
    intro acc hn
    have hmem : r.key ∉ acc.map Prod.fst := by
      intro hk
      rw [List.nodup_append] at hn
      exact hn.2.2 hk (List.mem_cons_self _ _)
    rw [List.foldl_cons, updateAppendB_not_mem hmem r]
    have hn' : ((acc ++ [(r.key, [r])]).map Prod.fst ++ t.map DerivedRec.key).Nodup := by
      have : (acc ++ [(r.key, [r])]).map Prod.fst ++ t.map DerivedRec.key =
          acc.map Prod.fst ++ (r.key :: t.map DerivedRec.key) := by
        simp
      rw [this]
      simpa using hn
    rw [ih _ hn']
    simp

/-- With pairwise-distinct keys every bucket is a singleton, in input order. -/
theorem groupBuckets_nodup_eq {rs : List DerivedRec}
    (h : (rs.map DerivedRec.key).Nodup) :
    groupBuckets rs = rs.map fun d => (d.key, [d]) := by
  have := foldBuckets_nodup_eq rs [] (by simpa using h)
  simpa [groupBuckets] using this

theorem flatMap_processGroup_singletons :
    ∀ (rs : List DerivedRec),
      ((rs.map fun d => (d.key, [d])).flatMap processGroup) =
        rs.map fun d => mkSingleBook d.key d := by
  intro rs
  induction rs with
  | nil => rfl
  | cons r t ih =>
    rw [List.map_cons, List.flatMap_cons, ih]
    rfl

/-! ## Membership lemmas for the multi-part processing -/

theorem mem_insertByPartNum {x y : DerivedRec} :
    ∀ {l : List DerivedRec}, y ∈ insertByPartNum x l ↔ y = x ∨ y ∈ l := by
  intro l
  induction l with
  | nil => simp [insertByPartNum]
  | cons z t ih =>
    by_cases h : Dec.ltB (partSortKey z) (partSortKey x)
    · simp only [insertByPartNum, h, if_true, List.mem_cons, ih]
      tauto
    · simp [insertByPartNum, h]

theorem mem_sortByPartNum {y : DerivedRec} :
    ∀ {l : List DerivedRec}, y ∈ sortByPartNum l ↔ y ∈ l := by
  intro l
  induction l with
  | nil => simp [sortByPartNum]
  | cons z t ih =>
    simp only [sortByPartNum, mem_insertByPartNum, ih, List.mem_cons]

theorem mem_mapWithIndexAux {f : Nat → α → β} :
    ∀ (l : List α) (i : Nat) {b : β}, b ∈ mapWithIndexAux f i l →
      ∃ j x, x ∈ l ∧ b = f j x := by
  intro l
  induction l with
  | nil => intro i b hb; simp [mapWithIndexAux] at hb
  | cons z t ih =>
    intro i b hb
    rcases List.mem_cons.mp hb with rfl | hb
    · exact ⟨i, z, List.mem_cons_self _ _, rfl⟩
    · obtain ⟨j, x, hx, he⟩ := ih (i + 1) hb
      exact ⟨j, x, List.mem_cons_of_mem _ hx, he⟩

/-- The per-member part-stripped titles of a multi-member group
(main.py lines 630-640). -/
def memberTitles (members : List DerivedRec) : List String :=
  members.map fun m =>
    strip_part_info_from_title
      (pyOrStr m.md.title m.md.album (basenameStr m.physical_folder_path))

/-- The title shared by every part of a multi-member group (main.py lines
642-654). -/
def sharedMultiTitle (k : LKey) (members : List DerivedRec) : String :=
  let shared0 := find_longest_common_substring (memberTitles members)
  if shared0 ≠ "" then shared0
  else
    pyStrip ((if pyTruthy k.2.1 then k.2.1.getD "" else "Book") ++ " " ++
      (match k.2.2.1 with | some n => n.pyStr | none => "")) ++ " (Multi-Part)"

theorem processGroup_multi (k : LKey) (m1 m2 : DerivedRec) (u : List DerivedRec) :
    processGroup (k, m1 :: m2 :: u) =
      mapWithIndex (fun i m => mkPartBook k (sharedMultiTitle k (m1 :: m2 :: u)) m i)
        (sortByPartNum (m1 :: m2 :: u)) := rfl

/-! ## Digit-count lemmas for the series-number padding -/

theorem natDigitsAux_length_lt :
    ∀ (fuel n : Nat) (acc : List Char), n < fuel →
      acc.length < (natDigitsAux fuel n acc).length := by
  intro fuel
  induction fuel with
  | zero => intro n acc h; exact absurd h (Nat.not_lt_zero n)
  | succ f ih =>
    intro n acc h
    by_cases h10 : n < 10
    · simp [natDigitsAux, h10]
    · have hn0 : 0 < n := Nat.lt_of_lt_of_le (by decide) (Nat.le_of_not_lt h10)
      have hdiv : n / 10 < n := Nat.div_lt_self hn0 (by decide)
      have hlt : n / 10 < f :=
        Nat.lt_of_lt_of_le hdiv (Nat.le_of_lt_succ h)
      simp only [natDigitsAux, h10, if_false]
      calc acc.length < (digitToChar (n % 10) :: acc).length := by simp
        _ < _ := ih (n / 10) _ hlt

theorem natDigits_length_pos (n : Nat) : 0 < (natDigits n).length := by
  have := natDigitsAux_length_lt (n + 1) n [] (Nat.lt_succ_self n)
  simpa [natDigits] using this

theorem zeroPadNat_one (n : Nat) : zeroPadNat 1 n = natStr n := by
  unfold zeroPadNat natStr
  have h : 1 - (natDigits n).length = 0 := Nat.sub_eq_zero_of_le (natDigits_length_pos n)
  simp [h]

theorem natDigits_two_le {n : Nat} (h : 10 ≤ n) : 2 ≤ (natDigits n).length := by
  have h10 : ¬ n < 10 := Nat.not_lt.mpr h
  have hstep : natDigits n = natDigitsAux n (n / 10) [digitToChar (n % 10)] := by
    unfold natDigits
    rw [show natDigitsAux (n + 1) n [] =
      if n < 10 then digitToChar n :: [] else natDigitsAux n (n / 10) (digitToChar (n % 10) :: [])
      from rfl]
    simp [h10]
  have hn0 : 0 < n := Nat.lt_of_lt_of_le (by decide) h
  have hdiv : n / 10 < n := Nat.div_lt_self hn0 (by decide)
  have := natDigitsAux_length_lt n (n / 10) [digitToChar (n % 10)] hdiv
  rw [hstep]
  simpa using this

/-- The padding width as the specification words it: `1` unless the series
maximum's integer part is at least `10`, in which case the digit count of
that integer part. -/
def specPadWidth (maxN : Dec) : Nat :=
  if 10 ≤ maxN.ip then (natDigits maxN.ip).length else 1

/-- The number prefix as the specification words it: the book number's
integer part zero-padded to the padding width, the fractional suffix kept
unpadded, then `" - "`. -/
def specSeriesPrefix (maxN num : Dec) : String :=
  zeroPadNat (specPadWidth maxN) num.ip ++
    (if num.frac.isEmpty then "" else "." ++ (digitsStr num.frac).asString) ++ " - "

/-! ## Loop lemmas for `extract_series_info` -/

theorem seriesPatternLoop_none :
    ∀ (ps : List (List Char → Option (List Char × (List Char × List Char))))
      (l : List Char) (nm : Option String) (num : Option Dec),
      (∀ p ∈ ps, p l = none) → seriesPatternLoop ps l nm num = (nm, num) := by
  intro ps
  induction ps with
  | nil => intro l nm num _; rfl
  | cons p t ih =>
    intro l nm num h
    have hp : p l = none := h p (List.mem_cons_self _ _)
    rw [show seriesPatternLoop (p :: t) l nm num =
      (match p l with
       | none => seriesPatternLoop t l nm num
       | some (g1, (ipD, frD)) =>
         let en := pyStripL g1
         let nm' := if en.isEmpty then nm else some en.asString
         let num' := some (decOfDigits ipD frD)
         if pyTruthy nm' then (nm', num')
         else seriesPatternLoop t l nm' num') from rfl, hp]
    exact ih l nm num (fun q hq => h q (List.mem_cons_of_mem _ hq))

theorem seriesCandidateLoop_none :
    ∀ (cs : List (Option String)) (nm : Option String) (num : Option Dec),
      (∀ s ∈ cs, pyTruthy s = true →
        ∀ p ∈ seriesPatterns, p (pyStripL (s.getD "").toList) = none) →
      seriesCandidateLoop cs nm num = (nm, num) := by
  intro cs
  induction cs with
  | nil => intro nm num _; rfl
  | cons s rest ih
  =>
    intro nm num h
    by_cases hs : pyTruthy s
    · have hr : seriesPatternLoop seriesPatterns (pyStripL (s.getD "").toList) nm num =
          (nm, num) :=
        seriesPatternLoop_none _ _ nm num (h s (List.mem_cons_self _ _) hs)
      rw [show seriesCandidateLoop (s :: rest) nm num =
        (if pyTruthy s then
          let r := seriesPatternLoop seriesPatterns (pyStripL (s.getD "").toList) nm num
          if pyTruthy r.1 ∧ r.2.isSome then r
          else seriesCandidateLoop rest r.1 r.2
        else seriesCandidateLoop rest nm num) from rfl]
      simp only [hs, if_true, hr]
      by_cases hb : pyTruthy nm ∧ (num : Option Dec).isSome
      · simp [hb]
      · simp only [hb, if_false]
        exact ih nm num (fun q hq => h q (List.mem_cons_of_mem _ hq))
    · rw [show seriesCandidateLoop (s :: rest) nm num =
        (if pyTruthy s then
          let r := seriesPatternLoop seriesPatterns (pyStripL (s.getD "").toList) nm num
          if pyTruthy r.1 ∧ r.2.isSome then r
          else seriesCandidateLoop rest r.1 r.2
        else seriesCandidateLoop rest nm num) from rfl]
      simp only [hs, if_false]
      exact ih nm num (fun q hq => h q (List.mem_cons_of_mem _ hq))

/-! ## Idempotence machinery for `strip_part_info_from_title` -/

/-- A character that can neither open a part notation nor interact with the
final `strip(' -.')` / `strip()` chain: not `(`, `[` or `-`, and no
whitespace other than a plain space. -/
def partCleanChar (c : Char) : Prop :=
  c ≠ '(' ∧ c ≠ '[' ∧ c ≠ '-' ∧ (isPyWs c = true → c = ' ')

instance (c : Char) : Decidable (partCleanChar c) := by
  unfold partCleanChar
  infer_instance

theorem mem_of_headSome {l : List α} {c : α} (h : l.head? = some c) : c ∈ l := by
  cases l with
  | nil => cases h
  | cons a t =>
    rw [List.head?_cons, Option.some.injEq] at h
    exact h ▸ List.mem_cons_self _ _

theorem mem_of_getLastSome : ∀ {l : List α} {c : α}, l.getLast? = some c → c ∈ l := by
  intro l
  induction l with
  | nil => intro c h; cases h
  | cons a t ih =>
    intro c h
    cases t with
    | nil =>
      rw [List.getLast?_singleton, Option.some.injEq] at h
      exact h ▸ List.mem_cons_self _ _
    | cons b u =>
      rw [List.getLast?_cons_cons] at h
      exact List.mem_cons_of_mem _ (ih h)

theorem foldStrip_fixed :
    ∀ (ps : List Matcher) (acc : List Char),
      (∀ p ∈ ps, ∀ l', (∀ c ∈ l', c ∈ acc) → p l' = none) →
      pyStripL acc = acc →
      ps.foldl (fun a p => pyStripL (gsubL p a)) acc = acc := by
  intro ps
  induction ps with
  | nil => intro acc _ _; rfl
  | cons p t ih =>
    intro acc h hfix
    rw [List.foldl_cons, gsubL_id (h p (List.mem_cons_self _ _)), hfix]
    exact ih acc (fun q hq => h q (List.mem_cons_of_mem _ hq)) hfix

theorem foldStrip_clean :
    ∀ (ps : List Matcher) (l : List Char), ps ≠ [] →
      (∀ p ∈ ps, ∀ l', (∀ c ∈ l', c ∈ l) → p l' = none) →
      ps.foldl (fun a p => pyStripL (gsubL p a)) l = pyStripL l := by
  intro ps l hne h
  cases ps with
  | nil => exact absurd rfl hne
  | cons p t =>
    rw [List.foldl_cons, gsubL_id (h p (List.mem_cons_self _ _))]
    apply foldStrip_fixed
    · intro q hq l' hsub
      exact h q (List.mem_cons_of_mem _ hq) l'
        (fun c hc => mem_of_mem_stripWith (hsub c hc))
    · exact stripWith_idem isPyWs l

/-- On a clean string the pattern fold only performs the initial
whitespace strip. -/
theorem stripPart_fold_clean {l : List Char}
    (hcl : ∀ c ∈ l, partCleanChar c) :
    partInfoPatterns.foldl (fun acc p => pyStripL (gsubL p acc)) l = pyStripL l := by
  apply foldStrip_clean _ _ (by simp [partInfoPatterns])
  intro p hp l' hsub
  apply partPattern_none _ _ _ p hp
  · intro hmem; exact (hcl '(' (hsub _ hmem)).1 rfl
  · intro hmem; exact (hcl '[' (hsub _ hmem)).2.1 rfl
  · intro hmem; exact (hcl '-' (hsub _ hmem)).2.2.1 rfl

/-- On a clean nonempty string, `strip_part_info_from_title` is just the
strip chain. -/
theorem strip_part_clean_eq {s : String}
    (hcl : ∀ c ∈ s.toList, partCleanChar c) (hne : s ≠ "") :
    strip_part_info_from_title s =
      (pyStripL (stripCharsL [' ', '-', '.'] (pyStripL s.toList))).asString := by
  unfold strip_part_info_from_title
  rw [if_neg hne]
  show (pyStripL (stripCharsL [' ', '-', '.']
    (partInfoPatterns.foldl (fun acc p => pyStripL (gsubL p acc)) s.toList))).asString = _
  rw [stripPart_fold_clean hcl]

/-- Idempotence of `strip_part_info_from_title` on clean strings. -/
theorem strip_part_clean_idem {s : String} (hcl : ∀ c ∈ s.toList, partCleanChar c) :
    strip_part_info_from_title (strip_part_info_from_title s) =
      strip_part_info_from_title s := by
  by_cases hne : s = ""
  · subst hne
    rfl
  · rw [strip_part_clean_eq hcl hne]
    set u := pyStripL s.toList with hu
    set w := stripCharsL [' ', '-', '.'] u with hw
    set v := pyStripL w with hv
    have hmemv : ∀ c ∈ v, c ∈ s.toList := by
      intro c hc
      rw [hv] at hc
      have hc2 : c ∈ w := mem_of_mem_stripWith hc
      rw [hw] at hc2
      have hc3 : c ∈ u := mem_of_mem_stripWith hc2
      rw [hu] at hc3
      exact mem_of_mem_stripWith hc3
    have hmemw : ∀ c ∈ w, c ∈ s.toList := by
      intro c hc
      rw [hw] at hc
      have hc2 : c ∈ u := mem_of_mem_stripWith hc
      rw [hu] at hc2
      exact mem_of_mem_stripWith hc2
    rcases hvc : v with _ | ⟨c0, v0⟩
    · rfl
    · rw [← hvc]
      have hvne : v.asString ≠ "" := by
        intro h
        have : v = [] := congrArg String.data h
        rw [this] at hvc
        cases hvc
      have hclv : ∀ c ∈ (v.asString).toList, partCleanChar c := by
        intro c hc
        exact hcl c (hmemv c hc)
      rw [strip_part_clean_eq hclv hvne]
      show (pyStripL (stripCharsL [' ', '-', '.'] (pyStripL v))).asString = v.asString
      have hwh : ∀ c, w.head? = some c → isPyWs c = false := by
        intro c hc
        have hset : (fun c => [' ', '-', '.'].contains c) c = false := by
          apply head?_stripWith (p := fun c => [' ', '-', '.'].contains c) (l := u)
          exact hc
        have hsp : c ≠ ' ' := by
          intro he; subst he; simp at hset
        have hcs : c ∈ s.toList := hmemw c (mem_of_headSome hc)
        rcases Bool.eq_false_or_eq_true (isPyWs c) with h | h
        · exact absurd ((hcl c hcs).2.2.2 h) hsp
        · exact h
      have hwl : ∀ c, w.getLast? = some c → isPyWs c = false := by
        intro c hc
        have hset : (fun c => [' ', '-', '.'].contains c) c = false := by
          apply getLast?_stripWith (p := fun c => [' ', '-', '.'].contains c) (l := u)
          exact hc
        have hsp : c ≠ ' ' := by
          intro he; subst he; simp at hset
        have hcs : c ∈ s.toList := hmemw c (mem_of_getLastSome hc)
        rcases Bool.eq_false_or_eq_true (isPyWs c) with h | h
        · exact absurd ((hcl c hcs).2.2.2 h) hsp
        · exact h
      have hveqw : v = w := by
        rw [hv]
        exact stripWith_noop hwh hwl
      have h1 : pyStripL v = v := by
        rw [hv]
        exact stripWith_idem isPyWs w
      have h2 : stripCharsL [' ', '-', '.'] v = v := by
        rw [hveqw, hw]
        exact stripWith_idem _ u
      rw [h1, h2, h1]

/-! ## Concrete scenarios -/

/-- Two folders sharing one grouping key whose titles have different longest
common substrings depending on member order. -/
def c1r1 : PhysicalFolderResult :=
  { physical_folder_path := "/lib/one"
    combined_metadata := some { artist := some "A", title := some "ab" }
    book_has_embedded_image := false
    all_audio_files_details_in_folder := [] }

def c1r2 : PhysicalFolderResult :=
  { physical_folder_path := "/lib/two"
    combined_metadata := some { artist := some "A", title := some "ba" }
    book_has_embedded_image := false
    all_audio_files_details_in_folder := [] }

/-- Two folders with distinct grouping keys (different authors). -/
def c1w1 : PhysicalFolderResult :=
  { physical_folder_path := "/w/one"
    combined_metadata := some { artist := some "A", title := some "One" }
    book_has_embedded_image := false
    all_audio_files_details_in_folder := [] }

def c1w2 : PhysicalFolderResult :=
  { physical_folder_path := "/w/two"
    combined_metadata := some { artist := some "B", title := some "Two" }
    book_has_embedded_image := false
    all_audio_files_details_in_folder := [] }

/-- C1: refuted. Folder order changes the output set: the two key-sharing
folders are grouped into one multi-part book whose shared core title is the
longest common substring computed from the first member's substring
enumeration, so swapping the members turns the cores from "a" into "b". -/
theorem c1_counterexample :
    [c1r1, c1r2].Perm [c1r2, c1r1] ∧
    Multiset.ofList (group_physical_folders_into_logical_books [c1r1, c1r2]).books ≠
      Multiset.ofList (group_physical_folders_into_logical_books [c1r2, c1r1]).books := by
  constructor
  · exact List.Perm.swap c1r2 c1r1 []
  · decide

/-- C1 (amended): when the derived records carry pairwise-distinct grouping
keys, `group_physical_folders_into_logical_books` is invariant under input
permutation: the books agree up to permutation, the series-max map agrees at
every name, and the ambiguous-name sets agree as sets. -/
theorem group_perm_invariant_of_distinct_keys
    (res1 res2 : List PhysicalFolderResult) (hperm : res1.Perm res2)
    (hkeys : ((res1.filterMap deriveRec).map DerivedRec.key).Nodup) :
    (group_physical_folders_into_logical_books res1).books.Perm
      (group_physical_folders_into_logical_books res2).books ∧
    (∀ name, lookupAssoc
        (group_physical_folders_into_logical_books res1).series_max_numbers name =
      lookupAssoc
        (group_physical_folders_into_logical_books res2).series_max_numbers name) ∧
    (∀ k, k ∈ (group_physical_folders_into_logical_books res1).ambiguous_base_names ↔
      k ∈ (group_physical_folders_into_logical_books res2).ambiguous_base_names) := by
  have hd : (res1.filterMap deriveRec).Perm (res2.filterMap deriveRec) :=
    hperm.filterMap deriveRec
  have hkeys2 : ((res2.filterMap deriveRec).map DerivedRec.key).Nodup :=
    (hd.map DerivedRec.key).nodup_iff.mp hkeys
  have e1 : (group_physical_folders_into_logical_books res1).books =
      (res1.filterMap deriveRec).map (fun d => mkSingleBook d.key d) := by
    show (groupBuckets (res1.filterMap deriveRec)).flatMap processGroup = _
    rw [groupBuckets_nodup_eq hkeys, flatMap_processGroup_singletons]
  have e2 : (group_physical_folders_into_logical_books res2).books =
      (res2.filterMap deriveRec).map (fun d => mkSingleBook d.key d) := by
    show (groupBuckets (res2.filterMap deriveRec)).flatMap processGroup = _
    rw [groupBuckets_nodup_eq hkeys2, flatMap_processGroup_singletons]
  have hbooks : (group_physical_folders_into_logical_books res1).books.Perm
      (group_physical_folders_into_logical_books res2).books := by
    rw [e1, e2]
    exact hd.map _
  exact ⟨hbooks, fun name => lookupAssoc_buildSeriesMax_perm hbooks name,
    fun k => mem_ambiguousBaseNames_perm hbooks k⟩

theorem c1_witness :
    ([c1w1, c1w2].Perm [c1w2, c1w1] ∧
      (([c1w1, c1w2].filterMap deriveRec).map DerivedRec.key).Nodup) ∧
    (group_physical_folders_into_logical_books [c1w1, c1w2]).books.Perm
      (group_physical_folders_into_logical_books [c1w2, c1w1]).books := by
  refine ⟨⟨by decide, by decide⟩, ?_⟩
  exact (group_perm_invariant_of_distinct_keys [c1w1, c1w2] [c1w2, c1w1]
    (by decide) (by decide)).1

/-- C2: every two records in one grouping bucket agree on the normalized
publisher and on the whole key, and every two derived records with the same
key land in the same bucket — so distinct publishers always force distinct
logical books and merging happens only on full key equality. -/
theorem publisher_forces_distinct_books
    (results : List PhysicalFolderResult) (k : LKey) (ms : List DerivedRec)
    (d1 d2 : DerivedRec)
    (hb : (k, ms) ∈ groupBuckets (results.filterMap deriveRec))
    (h1 : d1 ∈ ms) (h2 : d2 ∈ ms) :
    d1.md.publisher = d2.md.publisher ∧
    d1.author = d2.author ∧ d1.series_name = d2.series_name ∧
    d1.series_book_num = d2.series_book_num ∧
    (∀ e1 e2 : DerivedRec, e1 ∈ results.filterMap deriveRec →
      e2 ∈ results.filterMap deriveRec → e1.key = e2.key →
      ∃ ms', (e1.key, ms') ∈ groupBuckets (results.filterMap deriveRec) ∧
        e1 ∈ ms' ∧ e2 ∈ ms') := by
  have hk1 : d1.key = k := bucketKeyInv_groupBuckets _ k ms hb d1 h1
  have hk2 : d2.key = k := bucketKeyInv_groupBuckets _ k ms hb d2 h2
  have hkk : d1.key = d2.key := hk1.trans hk2.symm
  simp only [DerivedRec.key, Prod.mk.injEq] at hkk
  obtain ⟨ha, hs, hn, hp⟩ := hkk
  refine ⟨hp, ha, hs, hn, ?_⟩
  intro e1 e2 he1 he2 hk
  obtain ⟨ms1, hm1, hd1⟩ := exists_bucket_groupBuckets he1
  obtain ⟨ms2, hm2, hd2⟩ := exists_bucket_groupBuckets he2
  rw [← hk] at hm2
  have hms : ms1 = ms2 := bucket_unique_of_key hm1 hm2
  exact ⟨ms1, hm1, hd1, hms ▸ hd2⟩

/-- Two folders sharing author, series fields and publisher. -/
def c2rA : PhysicalFolderResult :=
  { physical_folder_path := "/p/one"
    combined_metadata := some { artist := some "A", title := some "ab", publisher := some "Pub" }
    book_has_embedded_image := false
    all_audio_files_details_in_folder := [] }

def c2rB : PhysicalFolderResult :=
  { physical_folder_path := "/p/two"
    combined_metadata := some { artist := some "A", title := some "ba", publisher := some "Pub" }
    book_has_embedded_image := false
    all_audio_files_details_in_folder := [] }

def dummyRec : DerivedRec :=
  { physical_folder_path := ""
    md := {}
    book_has_embedded_image := false
    all_audio_files_details_in_folder := []
    sanitized_core_book_title_for_grouping := ""
    author := ""
    series_name := none
    series_book_num := none }

def c2derived : List DerivedRec := [c2rA, c2rB].filterMap deriveRec

def c2key : LKey := ("A", none, none, some "Pub")

def c2bucket : List DerivedRec := ((groupBuckets c2derived).head?.map Prod.snd).getD []

def c2d1 : DerivedRec := c2bucket.headD dummyRec

def c2d2 : DerivedRec := (c2bucket.drop 1).headD dummyRec

theorem c2_witness :
    c2d1.md.publisher = c2d2.md.publisher ∧ c2d1.author = c2d2.author := by
  have h := publisher_forces_distinct_books [c2rA, c2rB] c2key c2bucket c2d1 c2d2
    (by decide) (by decide) (by decide)
  exact ⟨h.1, h.2.1⟩

/-- C3 (amended): in a group of two or more members every part's core title
is the sanitized longest common substring — case-SENSITIVE, drawn from the
first member's substring enumeration — of the members' part-stripped titles,
whenever that substring is nonempty after stripping. -/
theorem multi_part_shared_core_title (k : LKey) (members : List DerivedRec)
    (h2 : 2 ≤ members.length) (b : LogicalBookInfo)
    (hb : b ∈ processGroup (k, members))
    (hne : find_longest_common_substring (memberTitles members) ≠ "") :
    b.core_book_title =
      sanitize_filename (find_longest_common_substring (memberTitles members)) := by
  rcases members with _ | ⟨m1, rest⟩
  · simp at h2
  · rcases rest with _ | ⟨m2, u⟩
    · simp at h2
    · rw [processGroup_multi] at hb
      obtain ⟨j, x, hx, rfl⟩ := mem_mapWithIndexAux _ 0 hb
      show sanitize_filename (sharedMultiTitle k (m1 :: m2 :: u)) = _
      unfold sharedMultiTitle
      rw [if_pos hne]

/-- Two key-sharing folders titled "The Way of Kings Part 1" / "Part 2". -/
def c3m1 : DerivedRec :=
  { physical_folder_path := "/k/1"
    md := { title := some "The Way of Kings Part 1" }
    book_has_embedded_image := false
    all_audio_files_details_in_folder := []
    sanitized_core_book_title_for_grouping := "The Way of Kings"
    author := "Brandon Sanderson"
    series_name := none
    series_book_num := none }

def c3m2 : DerivedRec :=
  { physical_folder_path := "/k/2"
    md := { title := some "The Way of Kings Part 2" }
    book_has_embedded_image := false
    all_audio_files_details_in_folder := []
    sanitized_core_book_title_for_grouping := "The Way of Kings"
    author := "Brandon Sanderson"
    series_name := none
    series_book_num := none }

/-- C3: refuted on both counts. Part-stripping leaves "… Part 1"/"… Part 2"
intact (no pattern matches a bare trailing "Part n"), the shared title of the
spec's own example comes out as "The Way of Kings Part", and the substring
search of the live `main.py` is case-sensitive. -/
theorem c3_counterexample :
    memberTitles [c3m1, c3m2] =
      ["The Way of Kings Part 1", "The Way of Kings Part 2"] ∧
    (processGroup (("Brandon Sanderson", none, none, none), [c3m1, c3m2])).map
        (fun b => b.core_book_title) =
      ["The Way of Kings Part", "The Way of Kings Part"] ∧
    find_longest_common_substring
        ["The Way of Kings Part 1", "The Way of Kings Part 2"] =
      "The Way of Kings Part" ∧
    "The Way of Kings Part" ≠ "The Way of Kings" ∧
    find_longest_common_substring ["KINGS road", "kings road"] = "road" := by
  refine ⟨by decide, by decide, by decide, by decide, by decide⟩

theorem c3_witness :
    (2 ≤ ([c3m1, c3m2] : List DerivedRec).length ∧
      (processGroup (("Brandon Sanderson", none, none, none), [c3m1, c3m2])).headD
          (mkSingleBook ("Brandon Sanderson", none, none, none) c3m1) ∈
        processGroup (("Brandon Sanderson", none, none, none), [c3m1, c3m2]) ∧
      find_longest_common_substring (memberTitles [c3m1, c3m2]) ≠ "") ∧
    ((processGroup (("Brandon Sanderson", none, none, none), [c3m1, c3m2])).headD
        (mkSingleBook ("Brandon Sanderson", none, none, none) c3m1)).core_book_title =
      sanitize_filename (find_longest_common_substring (memberTitles [c3m1, c3m2])) := by
  refine ⟨⟨by decide, by decide, by decide⟩, ?_⟩
  exact multi_part_shared_core_title ("Brandon Sanderson", none, none, none)
    [c3m1, c3m2] (by decide) _ (by decide) (by decide)

/-- C4 (amended): a pair `(author, base-name)` is ambiguous iff two final
books with that pair carry distinct `(publisher, performer)` combinations;
the folder suffix of an ambiguous book is `" (Published by …)"` of the
normalize_publisher_name of the publisher when the publisher is truthy, else
`" (Narrated by …)"` of the normalize_publisher_name of the performer — not
the raw tag values. -/
theorem ambiguity_iff_and_suffix (results : List PhysicalFolderResult)
    (k : String × String) :
    (k ∈ (group_physical_folders_into_logical_books results).ambiguous_base_names ↔
      ∃ b1 ∈ (group_physical_folders_into_logical_books results).books,
        ∃ b2 ∈ (group_physical_folders_into_logical_books results).books,
          ambKeyOf b1 = k ∧ ambKeyOf b2 = k ∧ pubPerfPair b1 ≠ pubPerfPair b2) ∧
    (∀ (amb : List (String × String)) (info : LogicalBookInfo),
      ambKeyOf info ∈ amb → pyTruthy info.publisher = true →
      distinguisherStr amb info =
        " (Published by " ++ normCoreStr (info.publisher.getD "") ++ ")") ∧
    (∀ (amb : List (String × String)) (info : LogicalBookInfo),
      ambKeyOf info ∈ amb → pyTruthy info.publisher = false →
      pyTruthy info.performer = true →
      distinguisherStr amb info =
        " (Narrated by " ++ normCoreStr (info.performer.getD "") ++ ")") := by
  refine ⟨mem_ambiguousBaseNames_iff _ k, ?_, ?_⟩
  · intro amb info hmem hpub
    have hmem' : (info.author, if pyTruthy info.series_name then info.series_name.getD ""
        else info.core_book_title) ∈ amb := hmem
    unfold distinguisherStr
    rw [if_pos hmem', if_pos hpub]
  · intro amb info hmem hpub hperf
    have hmem' : (info.author, if pyTruthy info.series_name then info.series_name.getD ""
        else info.core_book_title) ∈ amb := hmem
    unfold distinguisherStr
    rw [if_pos hmem', if_neg (by simp [hpub]), if_pos hperf]

/-- Two single-book folders agreeing on author and core title but with
different performers and no publisher. -/
def c4r1 : PhysicalFolderResult :=
  { physical_folder_path := "/m/1"
    combined_metadata := some
      { artist := some "A"
        title := some "Mist"
        performer := some "Audible Studios"
        series_book_num := some (Dec.make 1 []) }
    book_has_embedded_image := false
    all_audio_files_details_in_folder := [] }

def c4r2 : PhysicalFolderResult :=
  { physical_folder_path := "/m/2"
    combined_metadata := some
      { artist := some "A"
        title := some "Mist"
        performer := some "Bob"
        series_book_num := some (Dec.make 2 []) }
    book_has_embedded_image := false
    all_audio_files_details_in_folder := [] }

/-- C4: the suffix part is refuted as literally stated: the performer
"Audible Studios" is rendered through `normalize_publisher_name`, so the
folder is "Mist (Narrated by Audible)", not "… (Narrated by Audible
Studios)". -/
theorem c4_counterexample :
    (group_physical_folders_into_logical_books [c4r1, c4r2]).ambiguous_base_names =
      [("A", "Mist")] ∧
    ((group_physical_folders_into_logical_books [c4r1, c4r2]).books.map fun b =>
      sanitize_filename (baseBookFolderName
        (group_physical_folders_into_logical_books [c4r1, c4r2]).series_max_numbers
        (group_physical_folders_into_logical_books [c4r1, c4r2]).ambiguous_base_names b)) =
      ["Mist (Narrated by Audible)", "Mist (Narrated by Bob)"] ∧
    "Mist (Narrated by Audible)" ≠ "Mist (Narrated by Audible Studios)" := by
  refine ⟨by decide, by decide, by decide⟩

def c4amb : List (String × String) := [("A", "Mist")]

def c4info : LogicalBookInfo :=
  { author := "A"
    series_name := none
    series_book_num := none
    core_book_title := "Mist"
    publisher := none
    performer := some "Audible Studios"
    book_has_embedded_image := false
    physical_folder_paths := ["/m/1"]
    all_audio_files_details := []
    is_multi_part := false
    part_display_name := none }

theorem c4_witness :
    distinguisherStr c4amb c4info =
      " (Narrated by " ++ normCoreStr "Audible Studios" ++ ")" := by
  have h := (ambiguity_iff_and_suffix [] ("", "")).2.2 c4amb c4info
    (by decide) (by decide) (by decide)
  exact h

def c5info : LogicalBookInfo :=
  { author := "A"
    series_name := some "S"
    series_book_num := some (Dec.make 2 [5])
    core_book_title := "T"
    publisher := none
    performer := none
    book_has_embedded_image := false
    physical_folder_paths := []
    all_audio_files_details := []
    is_multi_part := false
    part_display_name := none }

/-- C5: the number prefix follows the spec's padding rule (width 1 unless
the series maximum's integer part is ≥ 10, then its digit count; fractional
suffixes stay unpadded), and the spec's concrete examples hold. -/
theorem series_number_padding :
    (∀ (smax : List (String × Dec)) (info : LogicalBookInfo) (num : Dec),
      pyTruthy info.series_name = true → info.series_book_num = some num →
      seriesNumberPrefixStr smax info =
        specSeriesPrefix ((lookupAssoc smax (info.series_name.getD "")).getD num) num) ∧
    seriesNumberPrefixStr [("S", Dec.make 12 [])] c5info = "02.5 - " ∧
    seriesNumberPrefixStr [("S", Dec.make 9 [])] c5info = "2.5 - " ∧
    (List.range 12).map (fun j => seriesNumberPrefixStr [("S", Dec.make 12 [])]
        { c5info with series_book_num := some (Dec.make (j + 1) []) }) =
      ["01 - ", "02 - ", "03 - ", "04 - ", "05 - ", "06 - ", "07 - ", "08 - ",
       "09 - ", "10 - ", "11 - ", "12 - "] ∧
    (List.range 3).map (fun j => seriesNumberPrefixStr [("S", Dec.make 3 [])]
        { c5info with series_book_num := some (Dec.make (j + 1) []) }) =
      ["1 - ", "2 - ", "3 - "] := by
  refine ⟨?_, by decide, by decide, by decide, by decide⟩
  intro smax info num hname hnum
  unfold seriesNumberPrefixStr specSeriesPrefix specPadWidth
  rw [if_pos ⟨hname, by rw [hnum]; rfl⟩]
  rw [hnum]
  simp only [Option.getD_some]
  by_cases h10 : 10 ≤ ((lookupAssoc smax (info.series_name.getD "")).getD num).ip
  · have hp : 1 < (natDigits ((lookupAssoc smax
        (info.series_name.getD "")).getD num).ip).length := natDigits_two_le h10
    rw [if_pos h10, if_pos hp]
  · rw [if_neg h10, if_neg (by decide : ¬ (1 : Nat) < 1), zeroPadNat_one]

theorem c5_witness :
    (pyTruthy c5info.series_name = true ∧ c5info.series_book_num = some (Dec.make 2 [5])) ∧
    seriesNumberPrefixStr [("S", Dec.make 12 [])] c5info =
      specSeriesPrefix (Dec.make 12 []) (Dec.make 2 [5]) := by
  refine ⟨⟨rfl, rfl⟩, ?_⟩
  exact series_number_padding.1 [("S", Dec.make 12 [])] c5info (Dec.make 2 [5]) rfl rfl

/-- C6 (amended): a single-file part never gets a track suffix regardless of
its tags; with several files the suffix is `" Track {n} of {m}"` for a parsed
number and total, `" Track {n}"` with NO `" of {m}"` when only the number
parses, and the 1-based path-sorted positional index together with the file
count when no number parses; padding is the greater of 2 and the total's
digit width. -/
theorem track_suffix_rules :
    (∀ (details : List AudioFileDetail) (d : AudioFileDetail),
      details.length = 1 → trackInfoForFilename details d = "") ∧
    (∀ (details : List AudioFileDetail) (d : AudioFileDetail) (n t : Int),
      1 < details.length → parseTrackNums d.metadata = (some n, some t) →
      trackInfoForFilename details d =
        " Track " ++ zeroPadInt (max 2 (intStr t).length) n ++ " of " ++
          zeroPadInt (max 2 (intStr t).length) t) ∧
    (∀ (details : List AudioFileDetail) (d : AudioFileDetail) (n : Int),
      1 < details.length → parseTrackNums d.metadata = (some n, none) →
      trackInfoForFilename details d =
        " Track " ++ zeroPadInt (max 2 (natStr details.length).length) n) ∧
    (∀ (details : List AudioFileDetail) (d : AudioFileDetail) (pt : Option Int),
      1 < details.length → parseTrackNums d.metadata = (none, pt) →
      trackInfoForFilename details d =
        " Track " ++ zeroPadInt (trackPadding details.length pt)
            ((((sortStrs (details.map (·.file_path))).findIdx (· = d.file_path) + 1 : Nat)) : Int) ++
          " of " ++ zeroPadInt (trackPadding details.length pt) (details.length : Int)) := by
  refine ⟨?_, ?_, ?_, ?_⟩
  · intro details d h1
    simp [trackInfoForFilename, h1]
  · intro details d n t hlen hp
    simp [trackInfoForFilename, hp, trackPadding, hlen]
  · intro details d n hlen hp
    simp [trackInfoForFilename, hp, trackPadding, hlen]
  · intro details d pt hlen hp
    simp [trackInfoForFilename, hp, hlen]

def c6d1 : AudioFileDetail :=
  { file_path := "/bk/a.mp3", metadata := {}, has_embedded_image := false }

def c6d2 : AudioFileDetail :=
  { file_path := "/bk/b.mp3", metadata := { track := some "3" }, has_embedded_image := false }

/-- C6: refuted as literally stated: a parsed track number without a
parseable total yields `" Track 03"` with no `" of {m}"` at all. -/
theorem c6_counterexample :
    trackInfoForFilename [c6d1, c6d2] c6d2 = " Track 03" ∧
    containsSub (trackInfoForFilename [c6d1, c6d2] c6d2).toList " of".toList = false := by
  refine ⟨by decide, by decide⟩

def c6w : AudioFileDetail :=
  { file_path := "/bk/x.mp3"
    metadata := { track := some "7", TRACKTOTAL := some "9" }
    has_embedded_image := false }

theorem c6_witness : trackInfoForFilename [c6w] c6w = "" :=
  track_suffix_rules.1 [c6w] c6w rfl

/-- C7 (amended): in the live `main.py` the audio filename base of a
non-multi-part book is ALWAYS the book's core title; the per-track
cleaned-title preference described by the spec exists only in the unused
`book_organizer_logic` module. -/
theorem audio_filename_uses_core_title (info : LogicalBookInfo)
    (h : info.is_multi_part = false) :
    audioFileBaseName info = info.core_book_title ∧
    ∀ (details : List AudioFileDetail) (d : AudioFileDetail),
      finalAudioFileName info details d =
        sanitize_filename (info.core_book_title ++ trackInfoForFilename details d ++
          splitextExt d.file_path) := by
  have h1 : audioFileBaseName info = info.core_book_title := by
    unfold audioFileBaseName
    rw [if_neg (by simp [h])]
  refine ⟨h1, fun details d => ?_⟩
  unfold finalAudioFileName
  rw [h1]

def c7d : AudioFileDetail :=
  { file_path := "/mb/disc.mp3"
    metadata := { title := some "Extra Story" }
    has_embedded_image := false }

def c7info : LogicalBookInfo :=
  { author := "A"
    series_name := none
    series_book_num := none
    core_book_title := "Main Book"
    publisher := none
    performer := none
    book_has_embedded_image := false
    physical_folder_paths := ["/mb"]
    all_audio_files_details := [c7d]
    is_multi_part := false
    part_display_name := none }

/-- C7: refuted. The file's own cleaned title "Extra Story" is meaningful,
differs from the core title and is no placeholder, yet the destination
filename is still built from the core title "Main Book". -/
theorem c7_counterexample :
    strip_part_info_from_title (strip_series_info_from_title "Extra Story" none none) =
      "Extra Story" ∧
    pyLower "Extra Story" ≠ pyLower "Main Book" ∧
    pyLower "Extra Story" ∉ ["chapter", "track", "part"] ∧
    finalAudioFileName c7info [c7d] c7d = "Main Book.mp3" ∧
    "Main Book.mp3" ≠ "Extra Story.mp3" := by
  refine ⟨by decide, by decide, by decide, by decide, by decide⟩

theorem c7_witness :
    audioFileBaseName c7info = c7info.core_book_title ∧
    finalAudioFileName c7info [c7d] c7d =
      sanitize_filename (c7info.core_book_title ++ trackInfoForFilename [c7d] c7d ++
        splitextExt c7d.file_path) :=
  ⟨(audio_filename_uses_core_title c7info rfl).1,
   (audio_filename_uses_core_title c7info rfl).2 [c7d] c7d⟩

/-- C8: `extract_series_info` is a total function of its three optional
string inputs (hence deterministic and exception-free in the model), and
when no candidate matches any of the four ordered series patterns it
returns `(none, none)`. -/
theorem extract_series_info_no_match (g a t : Option String)
    (h : ∀ s ∈ [g, a, t], pyTruthy s = true →
      ∀ p ∈ seriesPatterns, p (pyStripL (s.getD "").toList) = none) :
    extract_series_info g a t = (none, none) := by
  have hr : seriesCandidateLoop [g, a, t] none none = (none, none) :=
    seriesCandidateLoop_none [g, a, t] none none h
  unfold extract_series_info
  rw [hr]

theorem c8_witness :
    extract_series_info (some "hello world") none (some "no series here") =
      (none, none) :=
  extract_series_info_no_match (some "hello world") none (some "no series here")
    (by decide)

/-- C9 (amended): `strip_part_info_from_title` is idempotent on strings
containing no `(`, `[` or `-` and no whitespace other than plain spaces
(in general it is not), and it maps the empty string to itself. -/
theorem strip_part_idem_on_clean :
    (∀ s : String, (∀ c ∈ s.toList, partCleanChar c) →
      strip_part_info_from_title (strip_part_info_from_title s) =
        strip_part_info_from_title s) ∧
    strip_part_info_from_title "" = "" :=
  ⟨fun _ hcl => strip_part_clean_idem hcl, rfl⟩

/-- C9: refuted in general. Deleting the inner part notation of a nested
parenthesis assembles a new part notation, so a second pass strips more. -/
theorem c9_counterexample :
    strip_part_info_from_title "A (Pa(1 of 2)rt 3 of 4)" = "A (Part 3 of 4)" ∧
    strip_part_info_from_title "A (Part 3 of 4)" = "A" ∧
    strip_part_info_from_title (strip_part_info_from_title "A (Pa(1 of 2)rt 3 of 4)") ≠
      strip_part_info_from_title "A (Pa(1 of 2)rt 3 of 4)" := by
  refine ⟨by decide, by decide, by decide⟩

theorem c9_witness :
    (∀ c ∈ "The Way of Kings Part 1".toList, partCleanChar c) ∧
    strip_part_info_from_title (strip_part_info_from_title "The Way of Kings Part 1") =
      strip_part_info_from_title "The Way of Kings Part 1" :=
  ⟨by decide, strip_part_idem_on_clean.1 "The Way of Kings Part 1" (by decide)⟩

/-! ## The sanitize_filename contract -/

theorem truncate_length_le (l : List Char) :
    (if l.length > 200 then l.take 200 else l).length ≤ 200 := by
  by_cases h : l.length > 200
  · rw [if_pos h, List.length_take]
    exact Nat.min_le_left _ _
  · rw [if_neg h]
    exact Nat.le_of_not_lt h

theorem mem_truncate {l : List Char} {c : Char}
    (h : c ∈ (if l.length > 200 then l.take 200 else l)) : c ∈ l := by
  by_cases h2 : l.length > 200
  · rw [if_pos h2] at h
    exact List.take_subset _ _ h
  · rwa [if_neg h2] at h

theorem sanitize_nonempty_eq (s : String) (hs : s ≠ "") :
    sanitize_filename s =
      (if (collapseWsL (stripCharsL [' ', '.'] (s.toList.map
          (fun c => if invalidFilenameChars.contains c then '_' else c)))).length > 200
       then (collapseWsL (stripCharsL [' ', '.'] (s.toList.map
          (fun c => if invalidFilenameChars.contains c then '_' else c)))).take 200
       else collapseWsL (stripCharsL [' ', '.'] (s.toList.map
          (fun c => if invalidFilenameChars.contains c then '_' else c)))).asString := by
  unfold sanitize_filename
  rw [if_neg hs]

/-- C10: `sanitize_filename` always returns at most 200 characters, none of
which is a forbidden filename character, and maps falsy input to the fixed
sentinel `"Untitled"`. -/
theorem sanitize_filename_contract :
    (∀ s : String, (sanitize_filename s).length ≤ 200 ∧
      ∀ c ∈ (sanitize_filename s).toList, invalidFilenameChars.contains c = false) ∧
    sanitize_filename "" = "Untitled" := by
  refine ⟨fun s => ?_, rfl⟩
  by_cases hs : s = ""
  · subst hs
    exact ⟨by decide, by decide⟩
  · rw [sanitize_nonempty_eq s hs]
    constructor
    · show (if _ > 200 then _ else _ : List Char).length ≤ 200
      exact truncate_length_le _
    · intro c hc
      have hc' : c ∈ (if (collapseWsL (stripCharsL [' ', '.'] (s.toList.map
          (fun c => if invalidFilenameChars.contains c then '_' else c)))).length > 200
        then (collapseWsL (stripCharsL [' ', '.'] (s.toList.map
          (fun c => if invalidFilenameChars.contains c then '_' else c)))).take 200
        else collapseWsL (stripCharsL [' ', '.'] (s.toList.map
          (fun c => if invalidFilenameChars.contains c then '_' else c)))) := hc
      have hc3 := mem_truncate hc'
      rcases mem_of_mem_collapseWsAux false hc3 with hsp | hcl2
      · subst hsp
        decide
      · have hcl1 : c ∈ s.toList.map
            (fun c => if invalidFilenameChars.contains c then '_' else c) :=
          mem_of_mem_stripWith hcl2
        obtain ⟨c0, _, hfc⟩ := List.mem_map.mp hcl1
        by_cases hinv : invalidFilenameChars.contains c0
        · rw [if_pos hinv] at hfc
          rw [← hfc]
          decide
        · rw [if_neg hinv] at hfc
          rw [← hfc]
          exact Bool.eq_false_iff.mpr hinv

theorem c10_witness :
    (sanitize_filename "a<b").length ≤ 200 ∧
    ∀ c ∈ (sanitize_filename "a<b").toList, invalidFilenameChars.contains c = false :=
  sanitize_filename_contract.1 "a<b"

end AudiobookOrganizer
